import Mathlib

/-!
Verification development for the `markdown-transform` repository.

Part 1 embeds the template parser runtime
(`packages/markdown-template/lib/coreparsers.js`) and the template
grammar compiler (`packages/markdown-template/lib/FromTemplate.js`).
Parsers are parsimmon combinators; parsimmon is deterministic:
a parser consumes a prefix of the input and either succeeds with a value
and the remaining input, or fails.  `P.alt` commits to the first
alternative that succeeds at the current position; there is no
backtracking across combinator boundaries.  We model a parser as a
function from the remaining input (a list of characters) to an optional
(value, rest) pair.
-/

/-- JS values produced by the parsers of `coreparsers.js`: matched strings,
numbers (`Number(raw)`, represented by the raw matched text, since no
verified property inspects the floating-point value), booleans, arrays,
objects (association lists in insertion order), and `undefined`. -/
inductive PValue where
  | pstr (s : String)
  | pnum (raw : String)
  | pbool (b : Bool)
  | plist (vs : List PValue)
  | pobj (fields : List (String × PValue))
  | jsUndefined

abbrev Chars := List Char

/-- A parsimmon parser value: consumes a prefix of the input,
yielding a result and the rest, or fails. -/
def Parser := Chars → Option (PValue × Chars)

/-- JS property assignment `o[k] = v` on an object in insertion order:
an existing key keeps its position and is overwritten, a new key is
appended. -/
def setProp {α : Type} (fields : List (String × α)) (k : String) (v : α) :
    List (String × α) :=
  if fields.any (fun p => p.1 = k) then
    fields.map (fun p => if p.1 = k then (k, v) else p)
  else fields ++ [(k, v)]

/-- JS property read `o[k]` (as `Option`; `none` models `undefined`). -/
def getProp {α : Type} (fields : List (String × α)) (k : String) : Option α :=
  (fields.find? (fun p => p.1 = k)).map (fun p => p.2)

/-- `typeof x === 'string'` on a `PValue`. -/
def isJsString : PValue → Bool
  | .pstr _ => true
  | _ => false

/-! ### The template grammar AST

`FromTemplate.js` dispatches on `ast.$class`
(`org.accordproject.ciceromark.template.*`) and reads the fields
`value`, `name`, `type`, `whenTrue`, `whenFalse`, `nodes`.  We model the
grammar tree as a closed inductive with exactly those fields. -/

inductive TemplateAst where
  | textChunk (value : String)
  | var (name : String) (type : String) (value : List String)
  | conditionalBlock (name whenTrue whenFalse : String)
  | unorderedListBlock (nodes : List TemplateAst)
  | clauseBlock (name : String) (type : String) (nodes : List TemplateAst)
  | withBlock (name : String) (type : String) (nodes : List TemplateAst)
  | contractBlock (name : String) (type : String) (nodes : List TemplateAst)

namespace TemplateAst

/-- JS read of `ast.name` (`none` models `undefined`). -/
def astName : TemplateAst → Option String
  | .textChunk _ => none
  | .var n _ _ => some n
  | .conditionalBlock n _ _ => some n
  | .unorderedListBlock _ => none
  | .clauseBlock n _ _ => some n
  | .withBlock n _ _ => some n
  | .contractBlock n _ _ => some n

/-- JS read of `ast.type` (`none` models `undefined`). -/
def astType : TemplateAst → Option String
  | .textChunk _ => none
  | .var _ t _ => some t
  | .conditionalBlock _ _ _ => none
  | .unorderedListBlock _ => none
  | .clauseBlock _ t _ => some t
  | .withBlock _ t _ => some t
  | .contractBlock _ t _ => some t

/-- JS read of `ast.whenTrue`. -/
def astWhenTrue : TemplateAst → Option String
  | .conditionalBlock _ wt _ => some wt
  | _ => none

/-- JS read of `ast.whenFalse`. -/
def astWhenFalse : TemplateAst → Option String
  | .conditionalBlock _ _ wf => some wf
  | _ => none

end TemplateAst

/-- A JS string-or-undefined value embedded into `PValue`. -/
def ofOptStr : Option String → PValue
  | some s => .pstr s
  | none => .jsUndefined

/-! ### coreparsers.js: output construction -/

/-- `mkVariable(variable, value)`: builds `{name, type, value}` from the
variable ast node. -/
def mkVariable (vbl : TemplateAst) (value : PValue) : PValue :=
  .pobj [("name", ofOptStr vbl.astName),
         ("type", ofOptStr vbl.astType),
         ("value", value)]

/-- `mkCompoundVariable(variable, value)`: builds
`{$class: variable.type, field.name: field.value, ...}` from the array of
component records.  A component's `name`/`value` are read as JS
properties; a non-array `value` leaves only the `$class` field (the JS
`for` loop body never runs when `value.length` is `undefined`). -/
def mkCompoundVariable (vbl : TemplateAst) (value : PValue) : PValue :=
  let base : List (String × PValue) := [("$class", ofOptStr vbl.astType)]
  match value with
  | .plist fields =>
    .pobj (fields.foldl (fun acc field =>
      match field with
      | .pobj fs =>
        setProp acc
          (match getProp fs "name" with
           | some (.pstr s) => s
           | _ => "undefined")
          ((getProp fs "value").getD .jsUndefined)
      | _ => setProp acc "undefined" .jsUndefined) base)
  | _ => .pobj base

/-- `mkCond(cond, value)`: `{name: cond.name, type: 'Boolean',
value: value === cond.whenTrue}` where `value` is the matched string. -/
def mkCond (cond : TemplateAst) (value : String) : PValue :=
  .pobj [("name", ofOptStr cond.astName),
         ("type", .pstr "Boolean"),
         ("value", .pbool (match cond.astWhenTrue with
                           | some wt => value = wt
                           | none => false))]

/-- `mkClause(clause, value)`. -/
def mkClause (clause : TemplateAst) (value : PValue) : PValue :=
  mkCompoundVariable clause value

/-- `mkWrappedClause(clause, value)`:
`{name: clause.name, type: clause.type, value: mkClause(clause, value)}`. -/
def mkWrappedClause (clause : TemplateAst) (value : PValue) : PValue :=
  .pobj [("name", ofOptStr clause.astName),
         ("type", ofOptStr clause.astType),
         ("value", mkClause clause value)]

/-- `mkContract(contract, value)`. -/
def mkContract (contract : TemplateAst) (value : PValue) : PValue :=
  mkClause contract value

/-! ### coreparsers.js: core parsing components -/

/-- The combinator `P.string(text)`: matches exactly `text`, yields the
matched string. -/
def pstring (text : String) : Chars → Option (String × Chars) := fun s =>
  if text.data.isPrefixOf s then some (text, s.drop text.data.length) else none

/-- Source `textParser(text)` = `P.string(text)`. -/
def textParser (text : String) : Parser := fun s =>
  (pstring text s).map (fun pr => (.pstr pr.1, pr.2))

/-- The anchored regex `/"[^"]*"/` of `stringLiteralParser`: a `"`,
then a maximal run of non-`"` characters, then a `"`; yields the whole
matched text including the quotes. -/
def stringLiteralRaw : Chars → Option (String × Chars) := fun s =>
  match s with
  | '"' :: rest =>
    match rest.drop ((rest.takeWhile (fun c => c ≠ '"')).length) with
    | '"' :: rest2 =>
      some (String.mk ('"' :: (rest.takeWhile (fun c => c ≠ '"') ++ ['"'])),
            rest2)
    | _ => none
  | _ => none

/-- `stringLiteralParser()` as a `Parser`. -/
def stringLiteralParser : Parser := fun s =>
  (stringLiteralRaw s).map (fun pr => (.pstr pr.1, pr.2))

/-- `choiceStringsParser(values)`: `P.alt` over `P.string` of each value;
the first alternative that matches wins. -/
def choiceStringsRaw (values : List String) : Chars → Option (String × Chars) :=
  fun s => values.foldr (fun v acc => (pstring v s).orElse (fun _ => acc)) none

/-- Runs a list of parsers in sequence, collecting all results. -/
def seqRun : List Parser → Chars → Option (List PValue × Chars)
  | [], s => some ([], s)
  | p :: ps, s =>
    match p s with
    | none => none
    | some (v, s1) =>
      match seqRun ps s1 with
      | none => none
      | some (vs, s2) => some (v :: vs, s2)

/-- `P.seq(p1..pn)`: all results, as a JS array. -/
def pseq (ps : List Parser) : Parser := fun s =>
  (seqRun ps s).map (fun pr => (.plist pr.1, pr.2))

/-- `seqParser(parsers)`: `P.seqMap` over the parsers with a final
function that filters out every result `x` with `typeof x === 'string'`. -/
def seqParser (ps : List Parser) : Parser := fun s =>
  (seqRun ps s).map (fun pr =>
    (.plist (pr.1.filter (fun x => !isJsString x)), pr.2))

/-- One digit, as in the character class `[0-9]`. -/
def isDigitChar (c : Char) : Bool := '0' ≤ c ∧ c ≤ '9'

/-- The JS regex metacharacter `.`: any character except a line
terminator (`\n`, `\r`, U+2028, U+2029). -/
def isRegexDot (c : Char) : Bool :=
  !(c = '\n' ∨ c = '\r' ∨ c = '\u2028' ∨ c = '\u2029')

/-- The anchored regex `/[0-9]+/` of `integerParser`: a maximal non-empty
digit run. -/
def integerRaw : Chars → Option (String × Chars) := fun s =>
  if (s.takeWhile isDigitChar).isEmpty then none
  else some (String.mk (s.takeWhile isDigitChar),
             s.drop (s.takeWhile isDigitChar).length)

/-- The anchored regex `/[0-9]+(.[0-9]+)?(e(\+|-)?[0-9]+)?/` of
`doubleParser`.  Note the dot in the middle group is NOT escaped, so it
is the regex metacharacter matching any non-line-terminator character.
Since both trailing groups are optional, the JS backtracking search
reduces to pure greedy matching: a maximal digit run; then, if the next
character matches `.` and is followed by at least one digit, that
character plus a maximal digit run; then, if an `e` with an optional
sign is followed by at least one digit, that exponent part.

The optional group `(.[0-9]+)?` at the current position: matched
characters and remaining input. -/
def dblFrac (r1 : Chars) : List Char × Chars :=
  match r1 with
  | c :: rest =>
    if isRegexDot c then
      if (rest.takeWhile isDigitChar).isEmpty then ([], c :: rest)
      else (c :: rest.takeWhile isDigitChar,
            rest.drop (rest.takeWhile isDigitChar).length)
    else ([], c :: rest)
  | [] => ([], [])

/-- The optional group `(e(\+|-)?[0-9]+)?` at the current position:
matched characters and remaining input. -/
def dblExp (r2 : Chars) : List Char × Chars :=
  match r2 with
  | 'e' :: rest =>
    match rest with
    | c :: rest2 =>
      if c = '+' ∨ c = '-' then
        if (rest2.takeWhile isDigitChar).isEmpty then ([], 'e' :: c :: rest2)
        else ('e' :: c :: rest2.takeWhile isDigitChar,
              rest2.drop (rest2.takeWhile isDigitChar).length)
      else
        if ((c :: rest2).takeWhile isDigitChar).isEmpty then
          ([], 'e' :: c :: rest2)
        else ('e' :: (c :: rest2).takeWhile isDigitChar,
              (c :: rest2).drop ((c :: rest2).takeWhile isDigitChar).length)
    | [] => ([], ['e'])
  | _ => ([], r2)

def doubleRaw : Chars → Option (String × Chars) := fun s =>
  if (s.takeWhile isDigitChar).isEmpty then none else
  some (String.mk (s.takeWhile isDigitChar ++
          (dblFrac (s.drop (s.takeWhile isDigitChar).length)).1 ++
          (dblExp (dblFrac (s.drop (s.takeWhile isDigitChar).length)).2).1),
        (dblExp (dblFrac (s.drop (s.takeWhile isDigitChar).length)).2).2)

/-- `doubleParser(variable)`: the double regex mapped through
`mkVariable(variable, Number(x))`. -/
def doubleParser (vbl : TemplateAst) : Parser := fun s =>
  (doubleRaw s).map (fun pr => (mkVariable vbl (.pnum pr.1), pr.2))

/-- `integerParser(variable)`: `/[0-9]+/` mapped through
`mkVariable(variable, Number(x))`. -/
def integerParser (vbl : TemplateAst) : Parser := fun s =>
  (integerRaw s).map (fun pr => (mkVariable vbl (.pnum pr.1), pr.2))

/-- JS `x.substring(a, b)`: arguments are clamped into `[0, length]` and
swapped when out of order. -/
def jsSubstring (s : String) (start finish : Int) : String :=
  let len : Int := s.length
  let a := min (max start 0) len
  let b := min (max finish 0) len
  let lo := min a b
  let hi := max a b
  String.mk ((s.data.drop lo.toNat).take (hi - lo).toNat)

/-- `stringParser(variable)`: a string literal mapped through
`mkVariable(variable, x.substring(1, x.length-1))` (the unquoted
interior). -/
def stringParser (vbl : TemplateAst) : Parser := fun s =>
  (stringLiteralRaw s).map (fun pr =>
    (mkVariable vbl (.pstr (jsSubstring pr.1 1 ((pr.1.length : Int) - 1))),
     pr.2))

/-- `enumParser(variable, enums)`: choice over the enum strings mapped
through `mkVariable`. -/
def enumParser (vbl : TemplateAst) (enums : List String) : Parser :=
  fun s => (choiceStringsRaw enums s).map (fun pr =>
    (mkVariable vbl (.pstr pr.1), pr.2))

/-- `condParser(cond)`:
`P.alt(P.string(cond.whenTrue), P.string(cond.whenFalse))` mapped through
`mkCond`.  `P.alt` commits to `whenTrue` whenever it matches at the
current position. -/
def condParser (cond : TemplateAst) : Parser := fun s =>
  (((pstring (cond.astWhenTrue.getD "") s).orElse
      (fun _ => pstring (cond.astWhenFalse.getD "") s))).map
    (fun pr => (mkCond cond pr.1, pr.2))

/-- `clauseParser(clause, content)`: `content.map(x => mkClause(clause, x))`. -/
def clauseParser (clause : TemplateAst) (content : Parser) : Parser := fun s =>
  (content s).map (fun pr => (mkClause clause pr.1, pr.2))

/-- `contractParser(contract, content)`:
`content.map(x => mkContract(contract, x))`. -/
def contractParser (contract : TemplateAst) (content : Parser) : Parser :=
  fun s => (content s).map (fun pr => (mkContract contract pr.1, pr.2))

/-- `wrap(before, after)` from parsimmon: `before`, then the wrapped
parser, then `after`; the result is the wrapped parser's result only. -/
def pwrap (before : Parser) (inner : Parser) (after : Parser) : Parser :=
  fun s =>
    match before s with
    | none => none
    | some (_, s1) =>
      match inner s1 with
      | none => none
      | some (v, s2) =>
        match after s2 with
        | none => none
        | some (_, s3) => some (v, s3)

/-- The `clauseBefore` opening-marker parser of `wrappedClauseParser`:
`P.seq(textParser('\n``` <clause src='), stringLiteralParser(),
textParser(' clauseid='), stringLiteralParser(), textParser('>\n'))`. -/
def clauseBefore : Parser :=
  pseq [textParser "\n``` <clause src=", stringLiteralParser,
        textParser " clauseid=", stringLiteralParser, textParser ">\n"]

/-- The `clauseAfter` closing-marker parser: `textParser('\n```\n')`. -/
def clauseAfter : Parser := textParser "\n```\n"

/-- `wrappedClauseParser(clause, content)`: the content wrapped between
the clause boundary markers, mapped through `mkWrappedClause`. -/
def wrappedClauseParser (clause : TemplateAst) (content : Parser) : Parser :=
  fun s => (pwrap clauseBefore content clauseAfter s).map
    (fun pr => (mkWrappedClause clause pr.1, pr.2))

/-! ### FromTemplate.js: the grammar compiler -/

/-- The mutable `params` object threaded through `parserOfTemplate`;
`params.contract` is set (never cleared) when a ContractBlock is
compiled, and the mutation is visible to every later compilation step
sharing the object. -/
structure Params where
  contract : Bool
deriving DecidableEq, Repr

/-- Modelled from the spec: `dateTimeParser` lives in
`lib/dateTimeParser.js`, which is not among the sources; the spec only
says that `DateTime` variables delegate to an external date/time literal
grammar.  No verified property depends on that grammar, so it is
modelled conservatively as a parser that never matches. -/
def dateTimeParser (_vbl : TemplateAst) : Parser := fun _ => none

mutual

/-- `parserOfTemplate(ast, params)`: compiles a grammar node into a
parser.  Exceptions are modelled with `Except`; the `params` object is
threaded to model its in-place mutation.  Following the source, the
`ClauseBlock` case compiles its children first and consults
`params.contract` afterwards, and the `UnorderedListBlock` / `WithBlock`
cases call `listParser` / `withParser`, which `coreparsers.js` does not
export, so they throw (`TypeError`) after their children compile. -/
def parserOfTemplate (ast : TemplateAst) (params : Params) :
    Except String (Parser × Params) :=
  match ast with
  | .textChunk v => .ok (textParser v, params)
  | .var _ ty enums =>
    if ty = "Enum" then .ok (enumParser ast enums, params)
    else if ty = "Integer" then .ok (integerParser ast, params)
    else if ty = "Double" then .ok (doubleParser ast, params)
    else if ty = "String" then .ok (stringParser ast, params)
    else if ty = "DateTime" then .ok (dateTimeParser ast, params)
    else .error ("Unknown variable type " ++ ty)
  | .conditionalBlock _ _ _ => .ok (condParser ast, params)
  | .unorderedListBlock nodes =>
    match parserOfTemplateList nodes params with
    | .error e => .error e
    | .ok _ => .error "TypeError: listParser is not a function"
  | .clauseBlock _ _ nodes =>
    match parserOfTemplateList nodes params with
    | .error e => .error e
    | .ok (qs, params1) =>
      if params1.contract then
        .ok (wrappedClauseParser ast (seqParser qs), params1)
      else
        .ok (clauseParser ast (seqParser qs), params1)
  | .withBlock _ _ nodes =>
    match parserOfTemplateList nodes params with
    | .error e => .error e
    | .ok _ => .error "TypeError: withParser is not a function"
  | .contractBlock _ _ nodes =>
    match parserOfTemplateList nodes { params with contract := true } with
    | .error e => .error e
    | .ok (qs, params1) => .ok (contractParser ast (seqParser qs), params1)

/-- `ast.nodes.map(x => parserOfTemplate(x, params))`: compiles children
left to right, threading the shared `params` object. -/
def parserOfTemplateList (nodes : List TemplateAst) (params : Params) :
    Except String (List Parser × Params) :=
  match nodes with
  | [] => .ok ([], params)
  | a :: as_ =>
    match parserOfTemplate a params with
    | .error e => .error e
    | .ok (q, params1) =>
      match parserOfTemplateList as_ params1 with
      | .error e => .error e
      | .ok (qs, params2) => .ok (q :: qs, params2)

end

/-- Parsimmon's `parser.parse(input)`: the parser must consume the whole
input (`skip(eof)`); anything else is a `ParseError` (modelled as
`none`). -/
def parseComplete (p : Parser) (input : String) : Option PValue :=
  match p input.data with
  | some (v, []) => some v
  | _ => none

/-!
Part 2 embeds the visitor dispatcher of
`packages/markdown-pdf/src/ToPdfMakeVisitor.js`, which converts a
CiceroMark document tree to a pdfmake JSON value.  The JS `parameters`
object carries the inherited marks (`emph`, `strong`, `code`) and
receives the produced node in `parameters.result`; we model the marks as
a structure threaded through the traversal (mutations of the object are
modelled by returning the updated structure) and `parameters.result` as
the returned value.  A thrown JS error is modelled with `Except`.
-/

/-- A CiceroMark document node as read by `ToPdfMakeVisitor`: a type tag
(`thing.getType()`) plus every field the visitor reads (`text`, `nodes`,
`level`, `destination`, `type` of a list — here `ltype` —, `value`,
`elementType`, `identifiedBy`). -/
inductive MdNode where
  | mk (tag : String) (text : String) (nodes : List MdNode) (level : String)
      (destination : String) (ltype : String) (value : String)
      (elementType : String) (identifiedBy : Bool)

namespace MdNode

/-- Reads `thing.getType()`. -/
def tag : MdNode → String
  | .mk t _ _ _ _ _ _ _ _ => t

/-- Reads `thing.text`. -/
def text : MdNode → String
  | .mk _ t _ _ _ _ _ _ _ => t

/-- Reads `thing.nodes` (an absent field behaves as the empty list in
every use in the source). -/
def nodes : MdNode → List MdNode
  | .mk _ _ ns _ _ _ _ _ _ => ns

/-- Reads `thing.level`. -/
def level : MdNode → String
  | .mk _ _ _ l _ _ _ _ _ => l

/-- Reads `thing.destination`. -/
def destination : MdNode → String
  | .mk _ _ _ _ d _ _ _ _ => d

/-- Reads `thing.type` of a List/ListBlock node. -/
def ltype : MdNode → String
  | .mk _ _ _ _ _ lt _ _ _ => lt

/-- Reads `thing.value`. -/
def value : MdNode → String
  | .mk _ _ _ _ _ _ v _ _ => v

/-- Reads `thing.elementType`. -/
def elementType : MdNode → String
  | .mk _ _ _ _ _ _ _ et _ => et

/-- Reads the truthiness of `thing.identifiedBy`. -/
def identifiedBy : MdNode → Bool
  | .mk _ _ _ _ _ _ _ _ ib => ib

end MdNode

/-- A pdfmake JSON value: strings, booleans, numbers, arrays, and
objects (association lists in insertion order). -/
inductive PdfVal where
  | s (str : String)
  | b (bv : Bool)
  | n (iv : Int)
  | arr (elems : List PdfVal)
  | obj (fields : List (String × PdfVal))

/-- The `parameters` object of the visitor minus its `result` field:
the inherited formatting marks. -/
structure VisitParams where
  strong : Bool
  emph : Bool
  code : Bool
deriving DecidableEq, Repr

mutual

/-- JS string coercion as used by the template literal
of the Heading rule (backquote, newline, dollar-brace child0.text,
newline, backquote): strings stay, booleans and numbers print, arrays
join their elements with a comma, objects print as `[object Object]`. -/
def jsToString : PdfVal → String
  | .s str => str
  | .b bv => if bv then "true" else "false"
  | .n iv => toString iv
  | .arr vs => String.intercalate "," (jsToStringList vs)
  | .obj _ => "[object Object]"

/-- String coercion of each element of an array, in order. -/
def jsToStringList : List PdfVal → List String
  | [] => []
  | v :: vs => jsToString v :: jsToStringList vs

end

/-- `unquoteString(value)`: `value.substring(1, value.length-1)` —
unconditionally drops the first and last character (with JS `substring`
clamping; no check that they are quote characters). -/
def unquoteString (value : String) : String :=
  jsSubstring value 1 ((value.length : Int) - 1)

/-- `applyMarks(leafNode, parameters)`: adds `style`/`italics`/`bold`
attributes to a leaf according to the inherited marks. -/
def applyMarks (leafNode : List (String × PdfVal)) (parameters : VisitParams) :
    List (String × PdfVal) :=
  let l1 := if parameters.emph then
      setProp (setProp leafNode "style" (.s "Emph")) "italics" (.b true)
    else leafNode
  let l2 := if parameters.strong then
      setProp (setProp l1 "style" (.s "Strong")) "bold" (.b true)
    else l1
  if parameters.code then setProp l2 "style" (.s "Code") else l2

/-- `getText(thing)`: the text of a `Text` node, otherwise the recursive
descent into the FIRST child only; the empty string when a non-`Text`
node has no children. -/
def getText : MdNode → String
  | .mk tag text nodes _ _ _ _ _ _ =>
    if tag = "Text" then text
    else
      match nodes with
      | n :: _ => getText n
      | [] => ""

/-- `handleFormattedText(thing, parameters)`: a `{text: getText(thing)}`
leaf with the inherited marks applied. -/
def handleFormattedText (thing : MdNode) (parameters : VisitParams) :
    List (String × PdfVal) :=
  applyMarks [("text", .s (getText thing))] parameters

/-- `getHeadingType(thing)`: maps `thing.level` to a heading style name,
defaulting to `heading_one`. -/
def getHeadingType (thing : MdNode) : String :=
  match thing.level with
  | "1" => "heading_one"
  | "2" => "heading_two"
  | "3" => "heading_three"
  | "4" => "heading_four"
  | "5" => "heading_five"
  | "6" => "heading_six"
  | _ => "heading_one"

/-- Truthiness of `child[0] && child[0].style === 'Image'` for the
Paragraph rule. -/
def isImageStyled (v : PdfVal) : Bool :=
  match v with
  | .obj fs =>
    match getProp fs "style" with
    | some (.s st) => st = "Image"
    | _ => false
  | _ => false

/-- JS read of `node.text` on a pdfmake value, string-coerced for the
Heading template literal (`undefined` prints as `"undefined"`). -/
def pdfTextOf (v : PdfVal) : String :=
  match v with
  | .obj fs =>
    match getProp fs "text" with
    | some t => jsToString t
    | none => "undefined"
  | _ => "undefined"

mutual

/-- The body of `visit(thing, parameters)`: builds the field list of the
produced pdfmake object (`result`), starting from `{style: getType()}`
and extending it per tag rule; returns the final state of the mutated
`parameters` object alongside.  An unmatched tag throws
`Unhandled type ...`; reading `.text` of a missing first child throws a
`TypeError`. -/
def visitFields (thing : MdNode) (parameters : VisitParams) :
    Except String (List (String × PdfVal) × VisitParams) :=
  match thing with
  | .mk tag text nodes _level destination ltype value elementType identifiedBy =>
    let result0 : List (String × PdfVal) := [("style", .s tag)]
    if tag = "Emph" then
      let parameters1 := { parameters with emph := true }
      match processChildren nodes parameters1 with
      | .error e => .error e
      | .ok children =>
        .ok (result0 ++ [("text", .arr children), ("italics", .b true)],
             parameters1)
    else if tag = "Strong" then
      let parameters1 := { parameters with strong := true }
      match processChildren nodes parameters1 with
      | .error e => .error e
      | .ok children =>
        .ok (result0 ++ [("text", .arr children), ("bold", .b true)],
             parameters1)
    else if tag = "BlockQuote" ∨ tag = "Item" ∨ tag = "Clause" then
      match processChildren nodes parameters with
      | .error e => .error e
      | .ok children => .ok (result0 ++ [("text", .arr children)], parameters)
    else if tag = "Link" then
      match nodes with
      | n0 :: _ =>
        .ok (result0 ++ [("text", .s n0.text), ("link", .s destination)],
             parameters)
      | [] => .error "TypeError: cannot read 'text' of undefined"
    else if tag = "Image" then
      .ok (result0 ++ [("image", .s destination)], parameters)
    else if tag = "Paragraph" then
      match processChildren nodes parameters with
      | .error e => .error e
      | .ok child =>
        match child with
        | c0 :: _ =>
          if isImageStyled c0 then
            .ok (result0 ++ [("stack", .arr child)], parameters)
          else
            .ok (result0 ++ [("text", .arr child),
                             ("margin", .arr [.n 0, .n 5])], parameters)
        | [] =>
          .ok (result0 ++ [("text", .arr child),
                           ("margin", .arr [.n 0, .n 5])], parameters)
    else if tag = "EnumVariable" ∨ tag = "FormattedVariable" ∨
            tag = "Formula" ∨ tag = "Variable" then
      let fixedText :=
        if elementType = "String" ∨ identifiedBy then unquoteString value
        else value
      .ok (result0 ++ [("text", .s fixedText)], parameters)
    else if tag = "Conditional" then
      match nodes with
      | n0 :: _ => .ok (result0 ++ [("text", .s n0.text)], parameters)
      | [] => .error "TypeError: cannot read 'text' of undefined"
    else if tag = "HtmlInline" ∨ tag = "HtmlBlock" ∨ tag = "CodeBlock" ∨
            tag = "Code" then
      .ok (result0 ++ [("text", .s text)], parameters)
    else if tag = "Text" then
      .ok (handleFormattedText thing parameters, parameters)
    else if tag = "Heading" then
      match processChildren nodes parameters with
      | .error e => .error e
      | .ok child =>
        match child with
        | c0 :: _ =>
          .ok ([("style", .s (getHeadingType thing)),
                ("text", .s ("\n" ++ pdfTextOf c0 ++ "\n")),
                ("tocItem", .b true)], parameters)
        | [] => .error "TypeError: cannot read 'text' of undefined"
    else if tag = "ThematicBreak" then
      .ok (result0 ++ [("text", .s ""), ("pageBreak", .s "after")], parameters)
    else if tag = "Linebreak" then
      .ok (result0 ++ [("text", .s "\n")], parameters)
    else if tag = "Softbreak" then
      .ok (result0 ++ [("text", .s " ")], parameters)
    else if tag = "ListBlock" ∨ tag = "List" then
      match processChildren nodes parameters with
      | .error e => .error e
      | .ok children =>
        .ok (result0 ++ [(if ltype = "ordered" then "ol" else "ul",
                          .arr children)], parameters)
    else if tag = "Document" then
      match processChildren nodes parameters with
      | .error e => .error e
      | .ok children => .ok (result0 ++ [("content", .arr children)], parameters)
    else
      .error ("Unhandled type " ++ tag)

/-- `processChildren(thing, fieldName, parameters)` specialised to
`fieldName = 'nodes'` (`processChildNodes`): visits each child with a
fresh copy `{strong, emph, code}` of the current parameters (so a
child's mutations never reach its siblings), reads the child's
`result`, and splices it when it is an array. -/
def processChildren (nodes : List MdNode) (parameters : VisitParams) :
    Except String (List PdfVal) :=
  match nodes with
  | [] => .ok []
  | node :: rest =>
    let newParameters : VisitParams :=
      { strong := parameters.strong, emph := parameters.emph,
        code := parameters.code }
    match visitFields node newParameters with
    | .error e => .error e
    | .ok (fs, _) =>
      match processChildren rest parameters with
      | .error e => .error e
      | .ok tail =>
        match PdfVal.obj fs with
        | .arr xs => .ok (xs ++ tail)
        | r => .ok (r :: tail)

end

/-- `visit(thing, parameters)`: the produced pdfmake object
(`parameters.result`) together with the final state of the `parameters`
object. -/
def visit (thing : MdNode) (parameters : VisitParams) :
    Except String (PdfVal × VisitParams) :=
  (visitFields thing parameters).map (fun pr => (.obj pr.1, pr.2))

/-!
## Basic lemmas about the parser runtime
-/

theorem pstring_append (t : String) (r : Chars) :
    pstring t (t.data ++ r) = some (t, r) := by
  unfold pstring
  rw [if_pos, List.drop_left]
  rw [List.isPrefixOf_iff_prefix]
  exact List.prefix_append _ r

theorem pstring_inv {t : String} {s r : Chars} {v : String}
    (h : pstring t s = some (v, r)) : v = t ∧ s = t.data ++ r := by
  unfold pstring at h
  split at h
  · rename_i hp
    rw [List.isPrefixOf_iff_prefix] at hp
    obtain ⟨u, hu⟩ := hp
    injection h with h1
    injection h1 with hv hr
    subst hu hv
    rw [List.drop_left] at hr
    exact ⟨rfl, by rw [hr]⟩
  · exact absurd h (by simp)

theorem textParser_append (t : String) (r : Chars) :
    textParser t (t.data ++ r) = some (.pstr t, r) := by
  simp [textParser, pstring_append]

theorem textParser_inv {t : String} {s r : Chars} {v : PValue}
    (h : textParser t s = some (v, r)) : v = .pstr t ∧ s = t.data ++ r := by
  unfold textParser at h
  cases hp : pstring t s with
  | none => rw [hp] at h; exact absurd h (by simp)
  | some pr =>
    rw [hp] at h
    obtain ⟨pv, prest⟩ := pr
    obtain ⟨h1, h2⟩ := pstring_inv hp
    simp only [Option.map_some'] at h
    injection h with h3
    injection h3 with hv hr
    subst hv hr h1
    exact ⟨rfl, h2⟩

theorem takeWhile_append_cons {p : Char → Bool} (inner : Chars) (c : Char)
    (rest : Chars) (hinner : ∀ x ∈ inner, p x) (hc : ¬ p c) :
    (inner ++ c :: rest).takeWhile p = inner := by
  induction inner with
  | nil =>
    simp only [List.nil_append, List.takeWhile_cons, if_neg hc]
  | cons a as ih =>
    have ha : p a := hinner a (by simp)
    rw [List.cons_append, List.takeWhile_cons, if_pos ha,
        ih (fun x hx => hinner x (by simp [hx]))]

theorem drop_takeWhile_length {p : Char → Bool} (l : Chars) :
    l.drop (l.takeWhile p).length = l.dropWhile p := by
  induction l with
  | nil => simp
  | cons a l ih =>
    by_cases hp : p a
    · simp [List.takeWhile_cons, List.dropWhile_cons, hp, ih]
    · simp [List.takeWhile_cons, List.dropWhile_cons, hp]

theorem stringLiteralRaw_append (inner : Chars) (rest : Chars)
    (h : ∀ c ∈ inner, c ≠ '"') :
    stringLiteralRaw ('"' :: (inner ++ '"' :: rest)) =
      some (String.mk ('"' :: (inner ++ ['"'])), rest) := by
  unfold stringLiteralRaw
  have ht : (inner ++ '"' :: rest).takeWhile (fun c => c ≠ '"') = inner := by
    apply takeWhile_append_cons
    · intro x hx; simpa using h x hx
    · simp
  simp only [ht]
  rw [List.drop_left]
  rfl

theorem stringLiteralRaw_inv {s r : Chars} {v : String}
    (h : stringLiteralRaw s = some (v, r)) :
    ∃ inner, (∀ c ∈ inner, c ≠ '"') ∧ s = '"' :: (inner ++ '"' :: r) ∧
      v = String.mk ('"' :: (inner ++ ['"'])) := by
  unfold stringLiteralRaw at h
  split at h
  · rename_i rest
    rw [drop_takeWhile_length] at h
    split at h
    · rename_i rest2 heq
      injection h with h1
      injection h1 with hv hr
      subst hv hr
      refine ⟨rest.takeWhile (fun c => c ≠ '"'), fun c hc => ?_, ?_, rfl⟩
      · have := List.mem_takeWhile_imp hc
        simpa using this
      · have hsplit := List.takeWhile_append_dropWhile
          (fun c => decide (c ≠ '"')) rest
        rw [heq] at hsplit
        conv_lhs => rw [← hsplit]
    · exact absurd h (by simp)
  · exact absurd h (by simp)

/-!
## Consumption: every constructed parser only consumes a prefix

Parsimmon parsers advance an index into the input; the remaining input
returned by any of the embedded parsers is always a suffix of the input
it was given.  This is needed to decompose a successful wrapped-clause
parse into marker/body segments.
-/

/-- The remaining input of a successful parse is a suffix of the input. -/
def ConsumingFn {α : Type} (p : Chars → Option (α × Chars)) : Prop :=
  ∀ s v r, p s = some (v, r) → r <:+ s

/-- `Consuming` specialised to `Parser`. -/
def Consuming (p : Parser) : Prop :=
  ∀ s v r, p s = some (v, r) → r <:+ s

theorem consuming_pstring (t : String) : ConsumingFn (pstring t) := by
  intro s v r h
  obtain ⟨-, h2⟩ := pstring_inv h
  exact ⟨t.data, h2.symm⟩

theorem consuming_stringLiteralRaw : ConsumingFn stringLiteralRaw := by
  intro s v r h
  obtain ⟨inner, -, h2, -⟩ := stringLiteralRaw_inv h
  exact ⟨'"' :: (inner ++ ['"']), by simp [h2]⟩

theorem consuming_integerRaw : ConsumingFn integerRaw := by
  intro s v r h
  unfold integerRaw at h
  split at h
  · exact absurd h (by simp)
  · injection h with h1
    injection h1 with hv hr
    subst hr
    exact List.drop_suffix _ s

theorem dblFrac_suffix (r1 : Chars) : (dblFrac r1).2 <:+ r1 := by
  unfold dblFrac
  split
  · rename_i c rest
    split
    · split
      · exact List.suffix_refl _
      · exact (List.drop_suffix _ rest).trans (List.suffix_cons c rest)
    · exact List.suffix_refl _
  · exact List.suffix_refl _

theorem choiceStringsRaw_cons (t : String) (ts : List String) (s : Chars) :
    choiceStringsRaw (t :: ts) s =
      (pstring t s).orElse (fun _ => choiceStringsRaw ts s) := rfl

theorem dblExp_suffix (r2 : Chars) : (dblExp r2).2 <:+ r2 := by
  unfold dblExp
  split
  · rename_i rest
    split
    · rename_i c rest2
      split
      · split
        · exact List.suffix_refl _
        · exact ((List.drop_suffix _ rest2).trans
            (List.suffix_cons c rest2)).trans (List.suffix_cons 'e' _)
      · split
        · exact List.suffix_refl _
        · exact (List.drop_suffix _ (c :: rest2)).trans (List.suffix_cons 'e' _)
    · exact List.suffix_refl _
  · exact List.suffix_refl _

theorem consuming_doubleRaw : ConsumingFn doubleRaw := by
  intro s v r h
  unfold doubleRaw at h
  split at h
  · exact absurd h (by simp)
  · injection h with h1
    injection h1 with hv hr
    subst hr
    exact ((dblExp_suffix _).trans (dblFrac_suffix _)).trans
      (List.drop_suffix _ s)

theorem consuming_choiceStringsRaw (values : List String) :
    ConsumingFn (choiceStringsRaw values) := by
  induction values with
  | nil => intro s v r h; exact absurd h (by simp [choiceStringsRaw])
  | cons t ts ih =>
    intro s v r h
    rw [choiceStringsRaw_cons] at h
    cases hp : pstring t s with
    | some pr =>
      rw [hp] at h
      replace h : some pr = some (v, r) := h
      injection h with h1
      exact consuming_pstring t s v r (by rw [hp, h1])
    | none =>
      rw [hp] at h
      replace h : choiceStringsRaw ts s = some (v, r) := h
      exact ih s v r h

theorem consuming_mapFst {α β : Type} {raw : Chars → Option (α × Chars)}
    (hraw : ConsumingFn raw) (f : α → β) :
    ConsumingFn (fun s => (raw s).map (fun pr => (f pr.1, pr.2))) := by
  intro s v r h
  replace h : (raw s).map (fun pr => (f pr.1, pr.2)) = some (v, r) := h
  cases hr : raw s with
  | none => rw [hr] at h; exact absurd h (by simp)
  | some pr =>
    rw [hr] at h
    obtain ⟨a, r0⟩ := pr
    simp only [Option.map_some'] at h
    injection h with h1
    injection h1 with hv hrr
    subst hrr
    exact hraw s a _ hr

theorem consuming_textParser (t : String) : Consuming (textParser t) :=
  consuming_mapFst (consuming_pstring t) _

theorem consuming_stringLiteralParser : Consuming stringLiteralParser :=
  consuming_mapFst consuming_stringLiteralRaw _

theorem consuming_doubleParser (vbl : TemplateAst) :
    Consuming (doubleParser vbl) :=
  fun s v r h => consuming_mapFst consuming_doubleRaw
    (fun x => mkVariable vbl (.pnum x)) s v r h

theorem consuming_integerParser (vbl : TemplateAst) :
    Consuming (integerParser vbl) :=
  fun s v r h => consuming_mapFst consuming_integerRaw
    (fun x => mkVariable vbl (.pnum x)) s v r h

theorem consuming_stringParser (vbl : TemplateAst) :
    Consuming (stringParser vbl) :=
  fun s v r h => consuming_mapFst consuming_stringLiteralRaw
    (fun x => mkVariable vbl (.pstr (jsSubstring x 1 ((x.length : Int) - 1))))
    s v r h

theorem consuming_enumParser (vbl : TemplateAst) (enums : List String) :
    Consuming (enumParser vbl enums) :=
  fun s v r h => consuming_mapFst (consuming_choiceStringsRaw enums)
    (fun x => mkVariable vbl (.pstr x)) s v r h

theorem consuming_condParser (cond : TemplateAst) :
    Consuming (condParser cond) := by
  intro s v r h
  unfold condParser at h
  cases hp : pstring (cond.astWhenTrue.getD "") s with
  | some pr =>
    rw [hp] at h
    replace h : some (mkCond cond pr.1, pr.2) = some (v, r) := h
    injection h with h1
    injection h1 with hv hr
    subst hr
    exact consuming_pstring _ s pr.1 pr.2 (by rw [hp])
  | none =>
    rw [hp] at h
    replace h : (pstring (cond.astWhenFalse.getD "") s).map
        (fun pr => (mkCond cond pr.1, pr.2)) = some (v, r) := h
    cases hq : pstring (cond.astWhenFalse.getD "") s with
    | none => rw [hq] at h; exact absurd h (by simp)
    | some pr =>
      rw [hq] at h
      simp only [Option.map_some'] at h
      injection h with h1
      injection h1 with hv hr
      subst hr
      exact consuming_pstring _ s pr.1 pr.2 (by rw [hq])

theorem consuming_seqRun {ps : List Parser} (hps : ∀ p ∈ ps, Consuming p) :
    ∀ {s : Chars} {vs : List PValue} {r : Chars},
      seqRun ps s = some (vs, r) → r <:+ s := by
  induction ps with
  | nil =>
    intro s vs r h
    unfold seqRun at h
    injection h with h1
    injection h1 with hv hr
    subst hr
    exact List.suffix_refl s
  | cons p ps ih =>
    intro s vs r h
    unfold seqRun at h
    split at h
    · exact absurd h (by simp)
    · rename_i v1 s1 heq1
      split at h
      · exact absurd h (by simp)
      · rename_i vs2 s2 heq2
        injection h with h1
        injection h1 with hv hr
        subst hr
        have h2 := ih (fun q hq => hps q (by simp [hq])) heq2
        exact h2.trans (hps p (by simp) s v1 s1 heq1)

theorem consuming_seqParser {ps : List Parser} (hps : ∀ p ∈ ps, Consuming p) :
    Consuming (seqParser ps) := by
  intro s v r h
  unfold seqParser at h
  cases hr : seqRun ps s with
  | none => rw [hr] at h; exact absurd h (by simp)
  | some pr =>
    rw [hr] at h
    simp only [Option.map_some'] at h
    injection h with h1
    injection h1 with hv hrr
    subst hrr
    exact consuming_seqRun hps hr

theorem consuming_pseq {ps : List Parser} (hps : ∀ p ∈ ps, Consuming p) :
    Consuming (pseq ps) := by
  intro s v r h
  unfold pseq at h
  cases hr : seqRun ps s with
  | none => rw [hr] at h; exact absurd h (by simp)
  | some pr =>
    rw [hr] at h
    simp only [Option.map_some'] at h
    injection h with h1
    injection h1 with hv hrr
    subst hrr
    exact consuming_seqRun hps hr

theorem consuming_pwrap {b i a : Parser} (hb : Consuming b) (hi : Consuming i)
    (ha : Consuming a) : Consuming (pwrap b i a) := by
  intro s v r h
  unfold pwrap at h
  split at h
  · exact absurd h (by simp)
  · rename_i v1 s1 heq1
    split at h
    · exact absurd h (by simp)
    · rename_i v2 s2 heq2
      split at h
      · exact absurd h (by simp)
      · rename_i v3 s3 heq3
        injection h with h1
        injection h1 with hv hr
        subst hr
        exact ((ha s2 v3 _ heq3).trans (hi s1 v2 s2 heq2)).trans
          (hb s v1 s1 heq1)

theorem consuming_clauseBefore : Consuming clauseBefore := by
  unfold clauseBefore
  apply consuming_pseq
  intro p hp
  simp only [List.mem_cons, List.mem_singleton] at hp
  rcases hp with h | h | h | h | h | h
  all_goals first
  | (subst h; exact consuming_textParser _)
  | (subst h; exact consuming_stringLiteralParser)
  | exact absurd h (by simp)

theorem consuming_clauseParser {c : TemplateAst} {q : Parser}
    (hq : Consuming q) : Consuming (clauseParser c q) :=
  fun s v r h => consuming_mapFst hq (mkClause c) s v r h

theorem consuming_contractParser {c : TemplateAst} {q : Parser}
    (hq : Consuming q) : Consuming (contractParser c q) :=
  fun s v r h => consuming_mapFst hq (mkContract c) s v r h

theorem consuming_wrappedClauseParser {c : TemplateAst} {q : Parser}
    (hq : Consuming q) : Consuming (wrappedClauseParser c q) :=
  fun s v r h => consuming_mapFst
    (consuming_pwrap consuming_clauseBefore hq (consuming_textParser _))
    (mkWrappedClause c) s v r h

theorem consuming_dateTimeParser (vbl : TemplateAst) :
    Consuming (dateTimeParser vbl) := by
  intro s v r h
  exact absurd h (by simp [dateTimeParser])

/-!
## The contract flag is monotone and compiled parsers are consuming
-/

mutual

/-- Compilation never clears `params.contract`: once true, it stays
true in the threaded (mutated) `params` object. -/
theorem parserOfTemplate_mono (a : TemplateAst) :
    ∀ (ps : Params) (q : Parser) (ps1 : Params),
      parserOfTemplate a ps = .ok (q, ps1) →
      ps.contract = true → ps1.contract = true := by
  cases a with
  | textChunk v =>
    intro ps q ps1 h hc
    unfold parserOfTemplate at h
    injection h with h1
    injection h1 with hq hps
    subst hps
    exact hc
  | var n ty enums =>
    intro ps q ps1 h hc
    unfold parserOfTemplate at h
    repeat' split at h
    all_goals
      first
      | (injection h with h1; injection h1 with hq hps; subst hps; exact hc)
      | simp at h
  | conditionalBlock n wt wf =>
    intro ps q ps1 h hc
    unfold parserOfTemplate at h
    injection h with h1
    injection h1 with hq hps
    subst hps
    exact hc
  | unorderedListBlock nodes =>
    intro ps q ps1 h hc
    unfold parserOfTemplate at h
    split at h <;> simp at h
  | clauseBlock n ty nodes =>
    intro ps q ps1 h hc
    unfold parserOfTemplate at h
    split at h
    · simp at h
    · rename_i qs params1 heq
      split at h
      all_goals
        (injection h with h1; injection h1 with hq hps; subst hps;
         exact parserOfTemplateList_mono nodes ps qs params1 heq hc)
  | withBlock n ty nodes =>
    intro ps q ps1 h hc
    unfold parserOfTemplate at h
    split at h <;> simp at h
  | contractBlock n ty nodes =>
    intro ps q ps1 h hc
    unfold parserOfTemplate at h
    split at h
    · simp at h
    · rename_i qs params1 heq
      injection h with h1
      injection h1 with hq hps
      subst hps
      exact parserOfTemplateList_mono nodes { ps with contract := true }
        qs params1 heq rfl

/-- List version of `parserOfTemplate_mono`. -/
theorem parserOfTemplateList_mono (l : List TemplateAst) :
    ∀ (ps : Params) (qs : List Parser) (ps1 : Params),
      parserOfTemplateList l ps = .ok (qs, ps1) →
      ps.contract = true → ps1.contract = true := by
  cases l with
  | nil =>
    intro ps qs ps1 h hc
    unfold parserOfTemplateList at h
    injection h with h1
    injection h1 with hq hps
    subst hps
    exact hc
  | cons a as_ =>
    intro ps qs ps1 h hc
    unfold parserOfTemplateList at h
    split at h
    · simp at h
    · rename_i q1 params1 heq1
      split at h
      · simp at h
      · rename_i qs2 params2 heq2
        injection h with h1
        injection h1 with hq hps
        subst hps
        exact parserOfTemplateList_mono as_ params1 qs2 params2 heq2
          (parserOfTemplate_mono a ps q1 params1 heq1 hc)

end

mutual

/-- Every parser produced by the compiler consumes a prefix of its
input: the remaining input it returns is a suffix of what it was
given. -/
theorem parserOfTemplate_consuming (a : TemplateAst) :
    ∀ (ps : Params) (q : Parser) (ps1 : Params),
      parserOfTemplate a ps = .ok (q, ps1) → Consuming q := by
  cases a with
  | textChunk v =>
    intro ps q ps1 h
    unfold parserOfTemplate at h
    injection h with h1
    injection h1 with hq hps
    subst hq
    exact consuming_textParser v
  | var n ty enums =>
    intro ps q ps1 h
    unfold parserOfTemplate at h
    repeat' split at h
    all_goals
      first
      | (injection h with h1; injection h1 with hq hps; subst hq;
         first
         | exact consuming_enumParser _ enums
         | exact consuming_integerParser _
         | exact consuming_doubleParser _
         | exact consuming_stringParser _
         | exact consuming_dateTimeParser _)
      | simp at h
  | conditionalBlock n wt wf =>
    intro ps q ps1 h
    unfold parserOfTemplate at h
    injection h with h1
    injection h1 with hq hps
    subst hq
    exact consuming_condParser _
  | unorderedListBlock nodes =>
    intro ps q ps1 h
    unfold parserOfTemplate at h
    split at h <;> simp at h
  | clauseBlock n ty nodes =>
    intro ps q ps1 h
    unfold parserOfTemplate at h
    split at h
    · simp at h
    · rename_i qs params1 heq
      have hqs : ∀ p ∈ qs, Consuming p :=
        parserOfTemplateList_consuming nodes ps qs params1 heq
      split at h
      · injection h with h1
        injection h1 with hq hps
        subst hq
        exact consuming_wrappedClauseParser (consuming_seqParser hqs)
      · injection h with h1
        injection h1 with hq hps
        subst hq
        exact consuming_clauseParser (consuming_seqParser hqs)
  | withBlock n ty nodes =>
    intro ps q ps1 h
    unfold parserOfTemplate at h
    split at h <;> simp at h
  | contractBlock n ty nodes =>
    intro ps q ps1 h
    unfold parserOfTemplate at h
    split at h
    · simp at h
    · rename_i qs params1 heq
      injection h with h1
      injection h1 with hq hps
      subst hq
      exact consuming_contractParser (consuming_seqParser
        (parserOfTemplateList_consuming nodes { ps with contract := true }
          qs params1 heq))

/-- List version of `parserOfTemplate_consuming`. -/
theorem parserOfTemplateList_consuming (l : List TemplateAst) :
    ∀ (ps : Params) (qs : List Parser) (ps1 : Params),
      parserOfTemplateList l ps = .ok (qs, ps1) → ∀ q ∈ qs, Consuming q := by
  cases l with
  | nil =>
    intro ps qs ps1 h
    unfold parserOfTemplateList at h
    injection h with h1
    injection h1 with hq hps
    subst hq
    intro q hq
    exact absurd hq (by simp)
  | cons a as_ =>
    intro ps qs ps1 h
    unfold parserOfTemplateList at h
    split at h
    · simp at h
    · rename_i q1 params1 heq1
      split at h
      · simp at h
      · rename_i qs2 params2 heq2
        injection h with h1
        injection h1 with hq hps
        subst hq
        intro q hq
        rcases List.mem_cons.mp hq with h1 | h1
        · subst h1
          exact parserOfTemplate_consuming a ps q params1 heq1
        · exact parserOfTemplateList_consuming as_ params1 qs2 params2 heq2
            q h1

end

/-!
## Clause boundary markers
-/

/-- The opening boundary marker as matched by `clauseBefore`: a newline,
then the literal backquote-fence and clause attributes with the two
identifiers in double quotes, then a newline (ending the `>` line). -/
def openMarker (src cid : Chars) : Chars :=
  "\n``` <clause src=".data ++
    '"' :: (src ++ '"' :: (" clauseid=".data ++
      '"' :: (cid ++ '"' :: ">\n".data)))

/-- The closing boundary marker: newline, three backquotes, newline. -/
def closeMarker : Chars := "\n```\n".data

theorem stringLiteralParser_inv {s r : Chars} {v : PValue}
    (h : stringLiteralParser s = some (v, r)) :
    ∃ inner, (∀ c ∈ inner, c ≠ '"') ∧ s = '"' :: (inner ++ '"' :: r) ∧
      v = .pstr (String.mk ('"' :: (inner ++ ['"']))) := by
  unfold stringLiteralParser at h
  cases hr : stringLiteralRaw s with
  | none => rw [hr] at h; exact absurd h (by simp)
  | some pr =>
    rw [hr] at h
    simp only [Option.map_some'] at h
    injection h with h1
    injection h1 with hv hrr
    subst hrr
    obtain ⟨inner, h1, h2, h3⟩ := stringLiteralRaw_inv hr
    exact ⟨inner, h1, h2, by rw [← hv, h3]⟩

theorem seqRun_cons_inv {p : Parser} {ps : List Parser} {s : Chars}
    {vs : List PValue} {r : Chars} (h : seqRun (p :: ps) s = some (vs, r)) :
    ∃ v s1 vs1, p s = some (v, s1) ∧ seqRun ps s1 = some (vs1, r) ∧
      vs = v :: vs1 := by
  unfold seqRun at h
  split at h
  · exact absurd h (by simp)
  · rename_i v s1 heq
    split at h
    · exact absurd h (by simp)
    · rename_i vs1 s2 heq2
      injection h with h1
      injection h1 with hv hr
      subst hr
      exact ⟨v, s1, vs1, heq, heq2, hv.symm⟩

theorem seqRun_nil_inv {s : Chars} {vs : List PValue} {r : Chars}
    (h : seqRun [] s = some (vs, r)) : vs = [] ∧ r = s := by
  unfold seqRun at h
  injection h with h1
  injection h1 with hv hr
  exact ⟨hv.symm, hr.symm⟩

theorem clauseBefore_inv {s rest : Chars} {v : PValue}
    (h : clauseBefore s = some (v, rest)) :
    ∃ src cid, (∀ c ∈ src, c ≠ '"') ∧ (∀ c ∈ cid, c ≠ '"') ∧
      s = openMarker src cid ++ rest := by
  unfold clauseBefore pseq at h
  cases hr : seqRun [textParser "\n``` <clause src=", stringLiteralParser,
      textParser " clauseid=", stringLiteralParser, textParser ">\n"] s with
  | none => rw [hr] at h; exact absurd h (by simp)
  | some pr =>
    rw [hr] at h
    obtain ⟨vs, s2⟩ := pr
    simp only [Option.map_some'] at h
    injection h with h1
    injection h1 with hv hrest
    subst hrest
    obtain ⟨v1, s1, t1, heq1, hr, -⟩ := seqRun_cons_inv hr
    obtain ⟨v2, s2', t2, heq2, hr, -⟩ := seqRun_cons_inv hr
    obtain ⟨v3, s3, t3, heq3, hr, -⟩ := seqRun_cons_inv hr
    obtain ⟨v4, s4, t4, heq4, hr, -⟩ := seqRun_cons_inv hr
    obtain ⟨v5, s5, t5, heq5, hr, -⟩ := seqRun_cons_inv hr
    obtain ⟨-, hs5⟩ := seqRun_nil_inv hr
    obtain ⟨-, hs⟩ := textParser_inv heq1
    obtain ⟨src, hsrc, hs1, -⟩ := stringLiteralParser_inv heq2
    obtain ⟨-, hs2'⟩ := textParser_inv heq3
    obtain ⟨cid, hcid, hs3, -⟩ := stringLiteralParser_inv heq4
    obtain ⟨-, hs4⟩ := textParser_inv heq5
    refine ⟨src, cid, hsrc, hcid, ?_⟩
    subst hs5
    rw [hs, hs1, hs2', hs3, hs4]
    simp [openMarker, List.append_assoc]

theorem seqRun_cons_eq (p : Parser) (ps : List Parser) {s s1 : Chars}
    {v : PValue} {vs : List PValue} {r : Chars} (hp : p s = some (v, s1))
    (hps : seqRun ps s1 = some (vs, r)) :
    seqRun (p :: ps) s = some (v :: vs, r) := by
  unfold seqRun
  rw [hp]
  show (match seqRun ps s1 with
        | none => none
        | some (vs, s2) => some (v :: vs, s2)) = some (v :: vs, r)
  rw [hps]

theorem stringLiteralParser_append (inner rest : Chars)
    (h : ∀ c ∈ inner, c ≠ '"') :
    stringLiteralParser ('"' :: (inner ++ '"' :: rest)) =
      some (.pstr (String.mk ('"' :: (inner ++ ['"']))), rest) := by
  unfold stringLiteralParser
  rw [stringLiteralRaw_append inner rest h]
  rfl

theorem clauseBefore_append (src cid : Chars) (rest : Chars)
    (hsrc : ∀ c ∈ src, c ≠ '"') (hcid : ∀ c ∈ cid, c ≠ '"') :
    ∃ v, clauseBefore (openMarker src cid ++ rest) = some (v, rest) := by
  have h5 : seqRun [textParser ">\n"] (">\n".data ++ rest) =
      some ([.pstr ">\n"], rest) :=
    seqRun_cons_eq _ _ (textParser_append _ _) rfl
  have h4 : seqRun [stringLiteralParser, textParser ">\n"]
      ('"' :: (cid ++ '"' :: (">\n".data ++ rest))) =
      some ([.pstr (String.mk ('"' :: (cid ++ ['"']))), .pstr ">\n"], rest) :=
    seqRun_cons_eq _ _ (stringLiteralParser_append cid _ hcid) h5
  have h3 : seqRun [textParser " clauseid=", stringLiteralParser,
      textParser ">\n"]
      (" clauseid=".data ++ '"' :: (cid ++ '"' :: (">\n".data ++ rest))) =
      some ([.pstr " clauseid=", .pstr (String.mk ('"' :: (cid ++ ['"']))),
             .pstr ">\n"], rest) :=
    seqRun_cons_eq _ _ (textParser_append _ _) h4
  have h2 : seqRun [stringLiteralParser, textParser " clauseid=",
      stringLiteralParser, textParser ">\n"]
      ('"' :: (src ++ '"' :: (" clauseid=".data ++
        '"' :: (cid ++ '"' :: (">\n".data ++ rest))))) =
      some ([.pstr (String.mk ('"' :: (src ++ ['"']))), .pstr " clauseid=",
             .pstr (String.mk ('"' :: (cid ++ ['"']))), .pstr ">\n"], rest) :=
    seqRun_cons_eq _ _ (stringLiteralParser_append src _ hsrc) h3
  have h1 : seqRun [textParser "\n``` <clause src=", stringLiteralParser,
      textParser " clauseid=", stringLiteralParser, textParser ">\n"]
      ("\n``` <clause src=".data ++
        ('"' :: (src ++ '"' :: (" clauseid=".data ++
          '"' :: (cid ++ '"' :: (">\n".data ++ rest)))))) =
      some ([.pstr "\n``` <clause src=",
             .pstr (String.mk ('"' :: (src ++ ['"']))), .pstr " clauseid=",
             .pstr (String.mk ('"' :: (cid ++ ['"']))), .pstr ">\n"], rest) :=
    seqRun_cons_eq _ _ (textParser_append _ _) h2
  have e1 : openMarker src cid ++ rest =
      "\n``` <clause src=".data ++
        ('"' :: (src ++ '"' :: (" clauseid=".data ++
          '"' :: (cid ++ '"' :: (">\n".data ++ rest))))) := by
    simp [openMarker, List.append_assoc]
  refine ⟨.plist [.pstr "\n``` <clause src=",
    .pstr (String.mk ('"' :: (src ++ ['"']))), .pstr " clauseid=",
    .pstr (String.mk ('"' :: (cid ++ ['"']))), .pstr ">\n"], ?_⟩
  unfold clauseBefore pseq
  rw [e1, h1]
  rfl

theorem wrappedClauseParser_append (c : TemplateAst) (q : Parser)
    (src cid : Chars) (hsrc : ∀ ch ∈ src, ch ≠ '"')
    (hcid : ∀ ch ∈ cid, ch ≠ '"') {body rest : Chars} {x : PValue}
    (hq : q body = some (x, closeMarker ++ rest)) :
    wrappedClauseParser c q (openMarker src cid ++ body) =
      some (mkWrappedClause c x, rest) := by
  obtain ⟨v0, h0⟩ := clauseBefore_append src cid body hsrc hcid
  unfold wrappedClauseParser pwrap
  rw [h0]
  show Option.map (fun pr => (mkWrappedClause c pr.1, pr.2))
      (match q body with
       | none => none
       | some (v, s2) =>
         match clauseAfter s2 with
         | none => none
         | some (_, s3) => some (v, s3)) = some (mkWrappedClause c x, rest)
  rw [hq]
  show Option.map (fun pr => (mkWrappedClause c pr.1, pr.2))
      (match clauseAfter (closeMarker ++ rest) with
       | none => none
       | some (_, s3) => some (x, s3)) = some (mkWrappedClause c x, rest)
  have hafter : clauseAfter (closeMarker ++ rest) =
      some (.pstr "\n```\n", rest) := textParser_append _ _
  rw [hafter]
  rfl

theorem wrappedClauseParser_inv {c : TemplateAst} {q : Parser}
    (hq : Consuming q) {s rest : Chars} {v : PValue}
    (h : wrappedClauseParser c q s = some (v, rest)) :
    ∃ src cid mid x, (∀ ch ∈ src, ch ≠ '"') ∧ (∀ ch ∈ cid, ch ≠ '"') ∧
      s = openMarker src cid ++ mid ++ closeMarker ++ rest ∧
      q (mid ++ (closeMarker ++ rest)) = some (x, closeMarker ++ rest) ∧
      v = mkWrappedClause c x := by
  unfold wrappedClauseParser at h
  cases hw : pwrap clauseBefore q clauseAfter s with
  | none => rw [hw] at h; exact absurd h (by simp)
  | some pr =>
    rw [hw] at h
    obtain ⟨x0, r2⟩ := pr
    simp only [Option.map_some'] at h
    injection h with h1
    injection h1 with hv hr
    have hrr := hr.symm
    subst hrr
    unfold pwrap at hw
    split at hw
    · exact absurd hw (by simp)
    · rename_i v1 s1 heqB
      split at hw
      · exact absurd hw (by simp)
      · rename_i x2 s2 heqQ
        split at hw
        · exact absurd hw (by simp)
        · rename_i v3 s3 heqA
          injection hw with h2
          injection h2 with hx hr3
          have hrr3 := hr3.symm
          subst hrr3
          obtain ⟨src, cid, hsrc, hcid, hs⟩ := clauseBefore_inv heqB
          unfold clauseAfter at heqA
          obtain ⟨-, hs2⟩ := textParser_inv heqA
          obtain ⟨mid, hmid⟩ := hq s1 x2 s2 heqQ
          refine ⟨src, cid, mid, x2, hsrc, hcid, ?_, ?_, ?_⟩
          · rw [hs, ← hmid, hs2]
            simp [List.append_assoc, closeMarker]
          · have hm : mid ++ (closeMarker ++ rest) = s1 := by
              rw [← hmid, hs2]; rfl
            rw [hm, heqQ, hs2]
            rfl
          · rw [← hv, hx]

theorem clauseParser_eq (c : TemplateAst) (q : Parser) (s : Chars) :
    clauseParser c q s = (q s).map (fun pr => (mkClause c pr.1, pr.2)) := rfl

/-- Shape of a compiled ClauseBlock: children are compiled with the
shared `params`, and the marker wrapping is chosen by the state of the
contract flag after the children compiled. -/
theorem parserOfTemplate_clause_ok {n ty : String} {nodes : List TemplateAst}
    {ps : Params} {p : Parser} {ps1 : Params}
    (h : parserOfTemplate (.clauseBlock n ty nodes) ps = .ok (p, ps1)) :
    ∃ qs, parserOfTemplateList nodes ps = .ok (qs, ps1) ∧
      (∀ q ∈ qs, Consuming q) ∧
      p = (if ps1.contract then
             wrappedClauseParser (.clauseBlock n ty nodes) (seqParser qs)
           else clauseParser (.clauseBlock n ty nodes) (seqParser qs)) := by
  unfold parserOfTemplate at h
  split at h
  · exact absurd h (by simp)
  · rename_i qs params1 heq
    have hqs := parserOfTemplateList_consuming nodes ps qs params1 heq
    split at h
    · rename_i hcon
      injection h with h1
      injection h1 with hp hps
      subst hps
      exact ⟨qs, heq, hqs, by rw [← hp, if_pos hcon]⟩
    · rename_i hcon
      injection h with h1
      injection h1 with hp hps
      subst hps
      exact ⟨qs, heq, hqs, by rw [← hp, if_neg hcon]⟩

theorem pstring_none_iff {t : String} {s : Chars} :
    pstring t s = none ↔ ¬ t.data <+: s := by
  unfold pstring
  split
  · rename_i hp
    rw [List.isPrefixOf_iff_prefix] at hp
    simp [hp]
  · rename_i hp
    rw [List.isPrefixOf_iff_prefix] at hp
    simp [hp]

theorem pstring_self (t : String) : pstring t t.data = some (t, []) := by
  have h1 := pstring_append t []
  rwa [List.append_nil] at h1

/-!
## Claim theorems
-/

/-- C2 (amended): a compiled ConditionalBlock is the committed
alternation `P.alt(P.string(whenTrue), P.string(whenFalse))`.  A parse
succeeds exactly when the input equals `whenTrue` (binding a Boolean
`true` record), or when `whenTrue` does not match at the start of the
input and the input equals `whenFalse` (binding `false`).  Consequently,
when `whenTrue` is a prefix of `whenFalse`, an input equal to
`whenFalse` raises ParseError instead of binding `false`: with
`whenTrue = "will"`, `whenFalse = "will not"`, parsing `"will"` binds
`true`, parsing `"maybe"` raises ParseError, and parsing `"will not"`
also raises ParseError (the parser commits to `"will"` and leaves
`" not"` unconsumed). -/
theorem claim2_conditional :
    (∀ (nm wt wf : String) (s : String) (v : PValue),
      parseComplete (condParser (.conditionalBlock nm wt wf)) s = some v ↔
        ((s = wt ∧ v = mkCond (.conditionalBlock nm wt wf) wt) ∨
         (¬ wt.data <+: s.data ∧ s = wf ∧
           v = mkCond (.conditionalBlock nm wt wf) wf))) ∧
    (∀ (nm wt wf : String),
      mkCond (.conditionalBlock nm wt wf) wt =
        .pobj [("name", .pstr nm), ("type", .pstr "Boolean"),
               ("value", .pbool true)] ∧
      (wf ≠ wt →
        mkCond (.conditionalBlock nm wt wf) wf =
          .pobj [("name", .pstr nm), ("type", .pstr "Boolean"),
                 ("value", .pbool false)])) ∧
    parseComplete
        (condParser (.conditionalBlock "forceMajeure" "will" "will not"))
        "will" =
      some (.pobj [("name", .pstr "forceMajeure"), ("type", .pstr "Boolean"),
                   ("value", .pbool true)]) ∧
    parseComplete
        (condParser (.conditionalBlock "forceMajeure" "will" "will not"))
        "maybe" = none := by
  refine ⟨?_, ?_, by rfl, by rfl⟩
  · intro nm wt wf s v
    constructor
    · intro h
      unfold parseComplete at h
      split at h
      · rename_i v' heq
        injection h with hv
        subst hv
        unfold condParser at heq
        simp only [TemplateAst.astWhenTrue, TemplateAst.astWhenFalse,
          Option.getD_some] at heq
        cases hp : pstring wt s.data with
        | some pr =>
          rw [hp] at heq
          replace heq :
              some (mkCond (.conditionalBlock nm wt wf) pr.1, pr.2) =
                some (v', []) := heq
          injection heq with heq1
          injection heq1 with h1 h2
          obtain ⟨hpr1, hpr2⟩ := pstring_inv hp
          rw [h2] at hpr2
          rw [List.append_nil] at hpr2
          left
          constructor
          · exact String.ext hpr2
          · rw [← h1, hpr1]
        | none =>
          rw [hp] at heq
          replace heq : (pstring wf s.data).map
              (fun pr => (mkCond (.conditionalBlock nm wt wf) pr.1, pr.2)) =
                some (v', []) := heq
          cases hq : pstring wf s.data with
          | none => rw [hq] at heq; exact absurd heq (by simp)
          | some pr =>
            rw [hq] at heq
            simp only [Option.map_some'] at heq
            injection heq with heq1
            injection heq1 with h1 h2
            obtain ⟨hpr1, hpr2⟩ := pstring_inv hq
            rw [h2] at hpr2
            rw [List.append_nil] at hpr2
            right
            refine ⟨pstring_none_iff.mp hp, ?_, ?_⟩
            · exact String.ext hpr2
            · rw [← h1, hpr1]
      · exact absurd h (by simp)
    · intro h
      rcases h with ⟨hs, hv⟩ | ⟨hnp, hs, hv⟩
      · rw [hs, hv]
        unfold parseComplete condParser
        simp only [TemplateAst.astWhenTrue, TemplateAst.astWhenFalse,
          Option.getD_some]
        rw [pstring_self wt]
        rfl
      · rw [hs] at hnp
        rw [hs, hv]
        have hpn : pstring wt wf.data = none := pstring_none_iff.mpr hnp
        unfold parseComplete condParser
        simp only [TemplateAst.astWhenTrue, TemplateAst.astWhenFalse,
          Option.getD_some]
        rw [hpn]
        rw [show (Option.orElse none
            (fun _ => pstring wf wf.data)) = pstring wf wf.data from rfl]
        rw [pstring_self wf]
        rfl
  · intro nm wt wf
    constructor
    · simp [mkCond, TemplateAst.astName, TemplateAst.astWhenTrue, ofOptStr]
    · intro hne
      simp [mkCond, TemplateAst.astName, TemplateAst.astWhenTrue, ofOptStr,
        hne]

/-- C2 counterexample: the claim as stated requires parsing
`"will not"` to bind `{value: false}`, but the compiled parser raises
ParseError on it — the alternation commits to the `"will"` branch and
the remaining `" not"` is never consumed. -/
theorem claim2_counterexample :
    parseComplete
        (condParser (.conditionalBlock "forceMajeure" "will" "will not"))
        "will not" = none := by rfl

/-- C2 witness for `claim2_conditional`. -/
theorem claim2_witness :
    ("will not" : String) ≠ "will" ∧
    parseComplete
        (condParser (.conditionalBlock "forceMajeure" "will" "will not"))
        "will not" ≠
      some (.pobj [("name", .pstr "forceMajeure"), ("type", .pstr "Boolean"),
                   ("value", .pbool false)]) := by
  constructor
  · decide
  · intro hcontra
    have h := (claim2_conditional.1 "forceMajeure" "will" "will not"
      "will not" _).mp hcontra
    rcases h with ⟨h1, -⟩ | ⟨h1, -, -⟩
    · exact absurd h1 (by decide)
    · exact h1 (by decide)

/-- C4 (code bug): the Double regex in `doubleParser` is
`/[0-9]+(.[0-9]+)?(e(\+|-)?[0-9]+)?/` with an UNESCAPED dot, so the
"fractional part" accepts any non-line-terminator character in place of
the decimal point.  A well-formed double such as `"3.14"` parses as the
claim says, but `"1x5"` — which the claim requires to fail — is accepted
in full and bound as `Number("1x5")` (`NaN`). -/
theorem claim4_double_unescaped_dot :
    parseComplete (doubleParser (.var "amount" "Double" [])) "3.14" =
      some (.pobj [("name", .pstr "amount"), ("type", .pstr "Double"),
                   ("value", .pnum "3.14")]) ∧
    parseComplete (doubleParser (.var "amount" "Double" [])) "1x5" =
      some (.pobj [("name", .pstr "amount"), ("type", .pstr "Double"),
                   ("value", .pnum "1x5")]) := by
  exact ⟨rfl, rfl⟩

theorem seqParser_no_string_results :
    ∀ (ps : List Parser) (s : Chars) (w : PValue) (r : Chars),
      seqParser ps s = some (w, r) →
      ∃ vs, w = .plist vs ∧ ∀ x ∈ vs, isJsString x = false := by
  intro ps s w r h
  unfold seqParser at h
  cases hr : seqRun ps s with
  | none => rw [hr] at h; exact absurd h (by simp)
  | some pr =>
    rw [hr] at h
    simp only [Option.map_some'] at h
    injection h with h1
    injection h1 with hw hrr
    refine ⟨pr.1.filter (fun x => !isJsString x), hw.symm, ?_⟩
    intro x hx
    have := List.of_mem_filter hx
    simpa using this

/-- C5: compiling the grammar sequence
`[TextChunk("Seller: "), Variable(name="seller", type="String")]` and
parsing `Seller: "Steve"` yields exactly the one-element bound list with
the unquoted string variable record; and in general the collected
results of a compiled sequence contain no raw string (literal TextChunk)
matches — `seqParser` filters them out. -/
theorem claim5_seq_filters_text :
    parserOfTemplateList [.textChunk "Seller: ", .var "seller" "String" []]
        { contract := false } =
      .ok ([textParser "Seller: ", stringParser (.var "seller" "String" [])],
           { contract := false }) ∧
    parseComplete
        (seqParser [textParser "Seller: ",
          stringParser (.var "seller" "String" [])]) "Seller: \"Steve\"" =
      some (.plist [.pobj [("name", .pstr "seller"), ("type", .pstr "String"),
                           ("value", .pstr "Steve")]]) ∧
    ∀ (ps : List Parser) (s : Chars) (w : PValue) (r : Chars),
      seqParser ps s = some (w, r) →
      ∃ vs, w = .plist vs ∧ ∀ x ∈ vs, isJsString x = false := by
  refine ⟨rfl, rfl, ?_⟩
  intro ps s w r h
  exact seqParser_no_string_results ps s w r h

/-- C5 witness for `claim5_seq_filters_text`: the general filter
property applied to the concrete parse of `Seller: "Steve"`. -/
theorem claim5_witness :
    ∃ vs, PValue.plist [.pobj [("name", .pstr "seller"),
        ("type", .pstr "String"), ("value", .pstr "Steve")]] = .plist vs ∧
      ∀ x ∈ vs, isJsString x = false := by
  refine claim5_seq_filters_text.2.2
    [textParser "Seller: ", stringParser (.var "seller" "String" [])]
    ("Seller: \"Steve\"".data) _ [] ?_
  rfl

/-- C10: the same ClauseBlock yields differently shaped bound values by
compilation context.  `clauseParser` (outside a contract) maps a content
parse straight to the compound record `mkClause` (a `$class`-tagged
record with one field per named child binding); `wrappedClauseParser`
(inside a contract) parses the same inner text between the boundary
markers and wraps that same compound record in `{name, type, value}`. -/
theorem claim10_clause_binding_shape :
    ∀ (n ty : String) (nodes : List TemplateAst) (q : Parser),
      (∀ (s : Chars) (x : PValue) (r : Chars), q s = some (x, r) →
        clauseParser (.clauseBlock n ty nodes) q s =
          some (mkClause (.clauseBlock n ty nodes) x, r)) ∧
      (∀ (src cid body rest : Chars) (x : PValue),
        (∀ ch ∈ src, ch ≠ '"') → (∀ ch ∈ cid, ch ≠ '"') →
        q body = some (x, closeMarker ++ rest) →
        wrappedClauseParser (.clauseBlock n ty nodes) q
            (openMarker src cid ++ body) =
          some (.pobj [("name", .pstr n), ("type", .pstr ty),
                       ("value", mkClause (.clauseBlock n ty nodes) x)],
                rest)) := by
  intro n ty nodes q
  constructor
  · intro s x r h
    rw [clauseParser_eq, h]
    rfl
  · intro src cid body rest x hsrc hcid h
    exact wrappedClauseParser_append (.clauseBlock n ty nodes) q src cid
      hsrc hcid h

/-- C10 witness: a clause with one text chunk and one String variable,
parsed outside and inside the markers. -/
theorem claim10_witness :
    clauseParser (.clauseBlock "c1" "org.test.MyClause"
        [.textChunk "Seller: ", .var "seller" "String" []])
      (seqParser [textParser "Seller: ",
        stringParser (.var "seller" "String" [])])
      ("Seller: \"Steve\"".data) =
      some (mkClause (.clauseBlock "c1" "org.test.MyClause"
          [.textChunk "Seller: ", .var "seller" "String" []])
        (.plist [.pobj [("name", .pstr "seller"), ("type", .pstr "String"),
                        ("value", .pstr "Steve")]]), []) ∧
    wrappedClauseParser (.clauseBlock "c1" "org.test.MyClause"
        [.textChunk "Seller: ", .var "seller" "String" []])
      (seqParser [textParser "Seller: ",
        stringParser (.var "seller" "String" [])])
      (openMarker "src1".data "c1".data ++
        ("Seller: \"Steve\"".data ++ closeMarker)) =
      some (.pobj [("name", .pstr "c1"), ("type", .pstr "org.test.MyClause"),
            ("value", mkClause (.clauseBlock "c1" "org.test.MyClause"
                [.textChunk "Seller: ", .var "seller" "String" []])
              (.plist [.pobj [("name", .pstr "seller"),
                ("type", .pstr "String"), ("value", .pstr "Steve")]]))],
            []) := by
  constructor
  · exact (claim10_clause_binding_shape "c1" "org.test.MyClause"
      [.textChunk "Seller: ", .var "seller" "String" []]
      (seqParser [textParser "Seller: ",
        stringParser (.var "seller" "String" [])])).1
      ("Seller: \"Steve\"".data) _ [] (by rfl)
  · exact (claim10_clause_binding_shape "c1" "org.test.MyClause"
      [.textChunk "Seller: ", .var "seller" "String" []]
      (seqParser [textParser "Seller: ",
        stringParser (.var "seller" "String" [])])).2
      "src1".data "c1".data ("Seller: \"Steve\"".data ++ closeMarker) [] _
      (by decide) (by decide) (by rfl)

/-- C1 (amended): a ClauseBlock compiled while the contract flag is set
(an enclosing ContractBlock is active) produces a parser that succeeds
only on input in which the matched text is literally bracketed by the
exact opening marker (with the two double-quoted identifiers) and the
exact closing marker; input lacking the markers raises ParseError.  A
ClauseBlock compiled with the flag unset behaves as the bare content
parser (no markers required or consumed) PROVIDED the flag is still
unset after its children compile: the compiler consults the shared
mutable flag only after compiling the children, so a ClauseBlock whose
descendants contain a ContractBlock is marker-wrapped even with no
enclosing ContractBlock. -/
theorem claim1_clause_markers :
    (∀ (n ty : String) (nodes : List TemplateAst) (ps : Params) (p : Parser)
       (ps1 : Params), ps.contract = true →
       parserOfTemplate (.clauseBlock n ty nodes) ps = .ok (p, ps1) →
       ∀ (s rest : Chars) (v : PValue), p s = some (v, rest) →
         ∃ src cid mid, (∀ ch ∈ src, ch ≠ '"') ∧ (∀ ch ∈ cid, ch ≠ '"') ∧
           s = openMarker src cid ++ mid ++ closeMarker ++ rest) ∧
    (∀ (n ty : String) (nodes : List TemplateAst) (ps : Params) (p : Parser)
       (ps1 : Params),
       parserOfTemplate (.clauseBlock n ty nodes) ps = .ok (p, ps1) →
       ps1.contract = false →
       ∃ qs, parserOfTemplateList nodes ps = .ok (qs, ps1) ∧
         ∀ s : Chars, p s = ((seqParser qs) s).map
           (fun pr => (mkClause (.clauseBlock n ty nodes) pr.1, pr.2))) := by
  constructor
  · intro n ty nodes ps p ps1 hc h s rest v hp
    obtain ⟨qs, heq, hqs, hshape⟩ := parserOfTemplate_clause_ok h
    have hc1 : ps1.contract = true :=
      parserOfTemplate_mono (.clauseBlock n ty nodes) ps p ps1 h hc
    rw [if_pos hc1] at hshape
    subst hshape
    obtain ⟨src, cid, mid, x, hsrc, hcid, hs, -, -⟩ :=
      wrappedClauseParser_inv (consuming_seqParser hqs) hp
    exact ⟨src, cid, mid, hsrc, hcid, hs⟩
  · intro n ty nodes ps p ps1 h hc1
    obtain ⟨qs, heq, hqs, hshape⟩ := parserOfTemplate_clause_ok h
    rw [if_neg (by rw [hc1]; exact Bool.false_ne_true)] at hshape
    subst hshape
    exact ⟨qs, heq, fun s => clauseParser_eq _ _ s⟩

/-- C1 counterexample: the claim's second half says a ClauseBlock
compiled with NO enclosing ContractBlock requires and consumes no
markers.  But the compiler checks the (mutated) contract flag only
after compiling the clause's children, so a ClauseBlock containing a
ContractBlock child is marker-wrapped although nothing encloses it: the
compiled parser fails on the empty input (which its content matches)
and succeeds only on marker-bracketed input. -/
theorem claim1_counterexample :
    (parserOfTemplate (.clauseBlock "c1" "T" [.contractBlock "ct" "CT" []])
        { contract := false }).toOption.map
      (fun pr => (pr.2.contract,
        pr.1 [],
        pr.1 ("\n``` <clause src=\"s\" clauseid=\"i\">\n\n```\n".data))) =
      some (true, none,
        some (.pobj [("name", .pstr "c1"), ("type", .pstr "T"),
          ("value", .pobj [("$class", .pstr "T"), ("undefined", .jsUndefined)])],
          ([] : Chars))) := by
  rfl

/-- C1 witness for `claim1_clause_markers`: applying the first half to
a concrete clause compiled inside a contract and a concrete successful
parse exhibits the marker decomposition. -/
theorem claim1_witness :
    ∃ src cid mid, (∀ ch ∈ src, ch ≠ '"') ∧ (∀ ch ∈ cid, ch ≠ '"') ∧
      openMarker "s1".data "c1".data ++ ("hi".data ++ closeMarker ++ []) =
        openMarker src cid ++ mid ++ closeMarker ++ [] := by
  have happ :
      parserOfTemplate (.clauseBlock "c1" "T" [.textChunk "hi"])
        { contract := true } =
      .ok (wrappedClauseParser (.clauseBlock "c1" "T" [.textChunk "hi"])
        (seqParser [textParser "hi"]), { contract := true }) := rfl
  have hparse :
      wrappedClauseParser (.clauseBlock "c1" "T" [.textChunk "hi"])
          (seqParser [textParser "hi"])
          (openMarker "s1".data "c1".data ++
            ("hi".data ++ closeMarker ++ [])) =
        some (.pobj [("name", .pstr "c1"), ("type", .pstr "T"),
          ("value", .pobj [("$class", .pstr "T")])], []) := by
    rfl
  exact claim1_clause_markers.1 "c1" "T" [.textChunk "hi"]
    { contract := true } _ { contract := true } rfl happ
    (openMarker "s1".data "c1".data ++ ("hi".data ++ closeMarker ++ []))
    [] _ hparse

/-- C8: `getText` returns the text of a `Text` node; otherwise it
recursively descends into only the first child, and returns the empty
string when a non-`Text` node has no children.  The third conjunct shows
it never looks at any child beyond the first. -/
theorem claim8_getText_first_child :
    (∀ t : MdNode, t.tag = "Text" → getText t = t.text) ∧
    (∀ t : MdNode, t.tag ≠ "Text" → t.nodes = [] → getText t = "") ∧
    (∀ (t c : MdNode) (cs : List MdNode), t.tag ≠ "Text" →
      t.nodes = c :: cs → getText t = getText c) := by
  refine ⟨?_, ?_, ?_⟩
  · intro t h
    obtain ⟨tag, text, nodes, l, d, lt, v, et, ib⟩ := t
    simp only [MdNode.tag] at h
    subst h
    rw [getText.eq_def]
    simp [MdNode.text]
  · intro t h hn
    obtain ⟨tag, text, nodes, l, d, lt, v, et, ib⟩ := t
    simp only [MdNode.tag] at h
    simp only [MdNode.nodes] at hn
    subst hn
    rw [getText.eq_def]
    simp [h]
  · intro t c cs h hn
    obtain ⟨tag, text, nodes, l, d, lt, v, et, ib⟩ := t
    simp only [MdNode.tag] at h
    simp only [MdNode.nodes] at hn
    subst hn
    rw [getText.eq_def]
    simp [h]

/-- C8 witness: the three clauses at concrete nodes — a `Text` leaf, a
childless `Paragraph`, and an `Emph` with two children (only the first
is used). -/
theorem claim8_witness :
    getText (.mk "Text" "hello" [] "" "" "" "" "" false) = "hello" ∧
    getText (.mk "Paragraph" "zz" [] "" "" "" "" "" false) = "" ∧
    getText (.mk "Emph" ""
        [.mk "Text" "first" [] "" "" "" "" "" false,
         .mk "Text" "second" [] "" "" "" "" "" false] "" "" "" "" "" false) =
      getText (.mk "Text" "first" [] "" "" "" "" "" false) := by
  refine ⟨?_, ?_, ?_⟩
  · exact claim8_getText_first_child.1 _ (by decide)
  · exact claim8_getText_first_child.2.1 _ (by decide) rfl
  · exact claim8_getText_first_child.2.2 _ _ _ (by decide) rfl

/-- C9: the heading style mapping sends levels `"1"`..`"6"` to
`heading_one`..`heading_six` and every other level value (e.g. `"9"`)
to `heading_one`. -/
theorem claim9_heading_mapping :
    (∀ t : MdNode, t.level = "1" → getHeadingType t = "heading_one") ∧
    (∀ t : MdNode, t.level = "2" → getHeadingType t = "heading_two") ∧
    (∀ t : MdNode, t.level = "3" → getHeadingType t = "heading_three") ∧
    (∀ t : MdNode, t.level = "4" → getHeadingType t = "heading_four") ∧
    (∀ t : MdNode, t.level = "5" → getHeadingType t = "heading_five") ∧
    (∀ t : MdNode, t.level = "6" → getHeadingType t = "heading_six") ∧
    (∀ t : MdNode, t.level ∉ ["1", "2", "3", "4", "5", "6"] →
      getHeadingType t = "heading_one") := by
  refine ⟨?_, ?_, ?_, ?_, ?_, ?_, ?_⟩
  all_goals intro t h
  all_goals
    first
    | (unfold getHeadingType; rw [h]; decide)
    | (unfold getHeadingType
       split <;> first | rfl | (rename_i heq; simp [heq] at h))

/-- C9 witness: levels `"3"` and `"9"` at concrete heading nodes. -/
theorem claim9_witness :
    getHeadingType (.mk "Heading" "" [] "3" "" "" "" "" false) =
      "heading_three" ∧
    getHeadingType (.mk "Heading" "" [] "9" "" "" "" "" false) =
      "heading_one" := by
  constructor
  · exact claim9_heading_mapping.2.2.1 _ rfl
  · exact claim9_heading_mapping.2.2.2.2.2.2 _ (by decide)

theorem unquoteString_strip (a b : Char) (l : List Char) :
    unquoteString (String.mk (a :: (l ++ [b]))) = String.mk l := by
  have hlen : ((String.mk (a :: (l ++ [b]))).length : Int) =
      (l.length : Int) + 2 := by
    simp [String.length, List.length_append]
    omega
  simp only [unquoteString, jsSubstring]
  rw [hlen]
  have h2 : min (max (1 : Int) 0) ((l.length : Int) + 2) = 1 := by omega
  have h3 : min (max ((l.length : Int) + 2 - 1) 0) ((l.length : Int) + 2) =
      (l.length : Int) + 1 := by omega
  rw [h2, h3]
  have h4 : min (1 : Int) ((l.length : Int) + 1) = 1 := by omega
  have h5 : max (1 : Int) ((l.length : Int) + 1) = (l.length : Int) + 1 := by
    omega
  rw [h4, h5]
  have h6 : (((l.length : Int) + 1) - 1).toNat = l.length := by omega
  have h7 : ((1 : Int)).toNat = 1 := by omega
  rw [h6, h7]
  show String.mk (((a :: (l ++ [b])).drop 1).take l.length) = String.mk l
  congr 1
  rw [List.drop_one, List.tail_cons, List.take_left]

/-- C3 (amended): for every Variable-family node, the emitted text is
the raw stored value, except when the node's element type is `"String"`
or the node is `identifiedBy` — in that case the value goes through
`unquoteString`, which unconditionally removes the first and last
characters, by JS `substring(1, length-1)` semantics: the empty string
stays empty, a single character stays itself, and any longer value —
quoted or not — loses its two outer characters (quote characters are
never checked). -/
theorem claim3_variable_unquote :
    (∀ (t : MdNode) (m : VisitParams),
      (t.tag = "EnumVariable" ∨ t.tag = "FormattedVariable" ∨
       t.tag = "Formula" ∨ t.tag = "Variable") →
      visit t m = .ok (.obj [("style", .s t.tag),
        ("text", .s (if t.elementType = "String" ∨ t.identifiedBy then
                       unquoteString t.value else t.value))], m)) ∧
    unquoteString "" = "" ∧
    (∀ a : Char, unquoteString (String.mk [a]) = String.mk [a]) ∧
    (∀ (a b : Char) (l : List Char),
      unquoteString (String.mk (a :: (l ++ [b]))) = String.mk l) := by
  refine ⟨?_, rfl, fun a => rfl, unquoteString_strip⟩
  intro t m htag
  obtain ⟨tag, text, nodes, l, d, lt, v, et, ib⟩ := t
  simp only [MdNode.tag] at htag
  simp only [MdNode.tag, MdNode.elementType, MdNode.identifiedBy,
    MdNode.value]
  rcases htag with rfl | rfl | rfl | rfl <;>
    (simp [visit, visitFields]; rfl)

/-- C3 counterexample: the claim says a stored value not wrapped in
matching quote characters is emitted unchanged, but `unquoteString`
never checks for quotes: a String-typed variable holding the unquoted
value `Steve` is emitted as `tev`. -/
theorem claim3_counterexample :
    visit (.mk "Variable" "" [] "" "" "" "Steve" "String" false)
        ⟨false, false, false⟩ =
      .ok (.obj [("style", .s "Variable"), ("text", .s "tev")],
           ⟨false, false, false⟩) ∧
    ("tev" : String) ≠ "Steve" := by
  exact ⟨rfl, by decide⟩

/-- C3 witness for `claim3_variable_unquote`: a quoted String variable
is unquoted, via the main conjunct at a concrete node. -/
theorem claim3_witness :
    visit (.mk "Variable" "" [] "" "" "" "\"Steve\"" "String" false)
        ⟨false, false, false⟩ =
      .ok (.obj [("style", .s "Variable"),
        ("text", .s (if ("String" : String) = "String" ∨ false then
          unquoteString "\"Steve\"" else "\"Steve\""))],
        ⟨false, false, false⟩) :=
  claim3_variable_unquote.1
    (.mk "Variable" "" [] "" "" "" "\"Steve\"" "String" false)
    ⟨false, false, false⟩ (by simp [MdNode.tag])

theorem visitFields_text (t : MdNode) (m : VisitParams)
    (h : t.tag = "Text") :
    visitFields t m = .ok (handleFormattedText t m, m) := by
  obtain ⟨tag, text, nodes, l, d, lt, v, et, ib⟩ := t
  simp only [MdNode.tag] at h
  subst h
  simp [visitFields]

theorem handleFormattedText_no_italics (t : MdNode) (m : VisitParams)
    (h : m.emph = false) :
    getProp (handleFormattedText t m) "italics" = none := by
  obtain ⟨ms, me, mc⟩ := m
  simp only at h
  subst h
  cases ms <;> cases mc <;>
    simp [handleFormattedText, applyMarks, setProp, getProp]

theorem handleFormattedText_no_bold (t : MdNode) (m : VisitParams)
    (h : m.strong = false) :
    getProp (handleFormattedText t m) "bold" = none := by
  obtain ⟨ms, me, mc⟩ := m
  simp only at h
  subst h
  cases me <;> cases mc <;>
    simp [handleFormattedText, applyMarks, setProp, getProp]

/-- C6: the emphasis/strong flag set while processing an Emph or Strong
node's children does not leak to the node's siblings: `processChildren`
hands every child a fresh copy of the current parameters, so a `Text`
sibling processed after the Emph/Strong node still sees the original
marks — its output has no `italics` key when the inherited `emph` flag
is false, and no `bold` key when the inherited `strong` flag is
false. -/
theorem claim6_no_mark_leak :
    ∀ (e t : MdNode) (m : VisitParams) (res : List PdfVal),
      (e.tag = "Emph" ∨ e.tag = "Strong") → t.tag = "Text" →
      processChildren [e, t] m = .ok res →
      ∃ r1, res = [r1, .obj (handleFormattedText t m)] ∧
        (m.emph = false →
          getProp (handleFormattedText t m) "italics" = none) ∧
        (m.strong = false →
          getProp (handleFormattedText t m) "bold" = none) := by
  intro e t m res hetag httag h
  rw [show processChildren [e, t] m =
      (match visitFields e (⟨m.strong, m.emph, m.code⟩ : VisitParams) with
       | .error er => .error er
       | .ok (fs, _) =>
         match processChildren [t] m with
         | .error er => .error er
         | .ok tail => .ok (PdfVal.obj fs :: tail)) from rfl] at h
  split at h
  · exact absurd h (by simp)
  · rename_i fs w heq
    rw [show processChildren [t] m =
        (match visitFields t (⟨m.strong, m.emph, m.code⟩ : VisitParams) with
         | .error er => .error er
         | .ok (fs2, _) => .ok [PdfVal.obj fs2]) from rfl] at h
    rw [visitFields_text t (⟨m.strong, m.emph, m.code⟩ : VisitParams)
      httag] at h
    replace h : (Except.ok
        (PdfVal.obj fs ::
          [PdfVal.obj (handleFormattedText t
            (⟨m.strong, m.emph, m.code⟩ : VisitParams))]) :
        Except String (List PdfVal)) = .ok res := h
    injection h with h1
    refine ⟨PdfVal.obj fs, ?_, ?_, ?_⟩
    · rw [← h1]
    · intro hm
      exact handleFormattedText_no_italics t m hm
    · intro hm
      exact handleFormattedText_no_bold t m hm

/-- C6 witness: an Emph node followed by a Text sibling under inherited
marks all-false: the sibling's record has neither italics nor bold. -/
theorem claim6_witness :
    ∃ r1, [PdfVal.obj [("style", .s "Emph"),
        ("text", .arr [.obj [("text", .s "it"), ("style", .s "Emph"),
          ("italics", .b true)]]), ("italics", .b true)],
       PdfVal.obj [("text", .s "x")]] =
      [r1, .obj (handleFormattedText
        (.mk "Text" "x" [] "" "" "" "" "" false) ⟨false, false, false⟩)] ∧
      (VisitParams.emph ⟨false, false, false⟩ = false →
        getProp (handleFormattedText (.mk "Text" "x" [] "" "" "" "" "" false)
          ⟨false, false, false⟩) "italics" = none) ∧
      (VisitParams.strong ⟨false, false, false⟩ = false →
        getProp (handleFormattedText (.mk "Text" "x" [] "" "" "" "" "" false)
          ⟨false, false, false⟩) "bold" = none) := by
  refine claim6_no_mark_leak
    (.mk "Emph" "" [.mk "Text" "it" [] "" "" "" "" "" false]
      "" "" "" "" "" false)
    (.mk "Text" "x" [] "" "" "" "" "" false)
    ⟨false, false, false⟩ _ (by left; rfl) rfl ?_
  rfl

/-- The tags with a transformation rule in the visitor's `switch`. -/
def handledTag (tag : String) : Bool :=
  tag = "Emph" ∨ tag = "Strong" ∨ tag = "BlockQuote" ∨ tag = "Item" ∨
  tag = "Clause" ∨ tag = "Link" ∨ tag = "Image" ∨ tag = "Paragraph" ∨
  tag = "EnumVariable" ∨ tag = "FormattedVariable" ∨ tag = "Formula" ∨
  tag = "Variable" ∨ tag = "Conditional" ∨ tag = "HtmlInline" ∨
  tag = "HtmlBlock" ∨ tag = "CodeBlock" ∨ tag = "Code" ∨ tag = "Text" ∨
  tag = "Heading" ∨ tag = "ThematicBreak" ∨ tag = "Linebreak" ∨
  tag = "Softbreak" ∨ tag = "ListBlock" ∨ tag = "List" ∨ tag = "Document"

/-- The error classes a `visit` call can end in, following the
traversal's evaluation order: `ok` (no failure), `unhandledErr` (the
first failure encountered is a tag with no rule — the
`Unhandled type ...` throw), `otherErr` (some other failure comes
first — in this visitor, the TypeError from reading `nodes[0].text` on
a Link or Conditional with no child, or on a Heading with no
children). -/
inductive ErrKind where
  | ok
  | unhandledErr
  | otherErr
deriving DecidableEq, Repr

mutual

/-- Classifies the first failure the dispatcher's traversal meets on a
tree, following its evaluation order: a children-recursing rule fails as
its leftmost failing child fails; Link and Conditional throw a TypeError
when they have no child (without visiting any); Heading visits its
children first and then throws a TypeError when there are none; the
remaining handled rules never fail; an unhandled tag is the
UnhandledNodeType failure. -/
def errKind : MdNode → ErrKind
  | .mk tag _ nodes _ _ _ _ _ _ =>
    if tag = "Emph" ∨ tag = "Strong" ∨ tag = "BlockQuote" ∨ tag = "Item" ∨
       tag = "Clause" ∨ tag = "Paragraph" ∨ tag = "ListBlock" ∨
       tag = "List" ∨ tag = "Document" then errKindList nodes
    else if tag = "Heading" then
      if nodes.isEmpty then .otherErr else errKindList nodes
    else if tag = "Link" ∨ tag = "Conditional" then
      if nodes.isEmpty then .otherErr else .ok
    else if handledTag tag then .ok
    else .unhandledErr

/-- Classifies the first failure when visiting children left to
right. -/
def errKindList : List MdNode → ErrKind
  | [] => .ok
  | n :: ns => if errKind n = .ok then errKindList ns else errKind n

end

theorem processChildren_cons_shape {n : MdNode} {ns : List MdNode}
    {m : VisitParams} {res : List PdfVal}
    (h : processChildren (n :: ns) m = .ok res) :
    ∃ fs tail, res = PdfVal.obj fs :: tail := by
  rw [show processChildren (n :: ns) m =
      (match visitFields n (⟨m.strong, m.emph, m.code⟩ : VisitParams) with
       | .error er => .error er
       | .ok (fs, _) =>
         match processChildren ns m with
         | .error er => .error er
         | .ok tail => .ok (PdfVal.obj fs :: tail)) from rfl] at h
  split at h
  · exact absurd h (by simp)
  · rename_i fs w heq
    split at h
    · exact absurd h (by simp)
    · rename_i tail heq2
      injection h with h1
      exact ⟨fs, tail, h1.symm⟩

mutual

/-- When the traversal meets no failure on a node (`errKind = ok`), the
visit succeeds. -/
theorem visitFields_ok_of_errKind (t : MdNode) :
    ∀ m : VisitParams, errKind t = .ok →
      ∃ pr, visitFields t m = .ok pr := by
  obtain ⟨tag, text, nodes, l, d, lt, v, et, ib⟩ := t
  intro m h
  rw [errKind] at h
  by_cases h1 : tag = "Emph" ∨ tag = "Strong" ∨ tag = "BlockQuote" ∨
      tag = "Item" ∨ tag = "Clause" ∨ tag = "Paragraph" ∨
      tag = "ListBlock" ∨ tag = "List" ∨ tag = "Document"
  · rw [if_pos h1] at h
    rcases h1 with rfl | rfl | rfl | rfl | rfl | rfl | rfl | rfl | rfl
    · obtain ⟨res, hres⟩ := processChildren_ok_of_errKind nodes
        { m with emph := true } h
      exact ⟨_, by simp [visitFields, hres]; rfl⟩
    · obtain ⟨res, hres⟩ := processChildren_ok_of_errKind nodes
        { m with strong := true } h
      exact ⟨_, by simp [visitFields, hres]; rfl⟩
    · obtain ⟨res, hres⟩ := processChildren_ok_of_errKind nodes m h
      exact ⟨_, by simp [visitFields, hres]; rfl⟩
    · obtain ⟨res, hres⟩ := processChildren_ok_of_errKind nodes m h
      exact ⟨_, by simp [visitFields, hres]; rfl⟩
    · obtain ⟨res, hres⟩ := processChildren_ok_of_errKind nodes m h
      exact ⟨_, by simp [visitFields, hres]; rfl⟩
    · obtain ⟨res, hres⟩ := processChildren_ok_of_errKind nodes m h
      cases res with
      | nil => exact ⟨_, by simp [visitFields, hres]; rfl⟩
      | cons c0 cs =>
        by_cases him : isImageStyled c0 = true
        · exact ⟨_, by simp [visitFields, hres, him]; rfl⟩
        · exact ⟨_, by simp [visitFields, hres, him]; rfl⟩
    · obtain ⟨res, hres⟩ := processChildren_ok_of_errKind nodes m h
      exact ⟨_, by simp [visitFields, hres]; rfl⟩
    · obtain ⟨res, hres⟩ := processChildren_ok_of_errKind nodes m h
      exact ⟨_, by simp [visitFields, hres]; rfl⟩
    · obtain ⟨res, hres⟩ := processChildren_ok_of_errKind nodes m h
      exact ⟨_, by simp [visitFields, hres]; rfl⟩
  · rw [if_neg h1] at h
    by_cases h2 : tag = "Heading"
    · subst h2
      rw [if_pos rfl] at h
      cases nodes with
      | nil => simp at h
      | cons n0 ns0 =>
        rw [if_neg (by simp)] at h
        obtain ⟨res, hres⟩ := processChildren_ok_of_errKind (n0 :: ns0) m h
        obtain ⟨fs, tail, hshape⟩ := processChildren_cons_shape hres
        subst hshape
        exact ⟨_, by simp [visitFields, hres]; rfl⟩
    · rw [if_neg h2] at h
      by_cases h3 : tag = "Link" ∨ tag = "Conditional"
      · rw [if_pos h3] at h
        cases nodes with
        | nil => simp at h
        | cons n0 ns0 =>
          rcases h3 with rfl | rfl
          · exact ⟨_, by simp [visitFields]; rfl⟩
          · exact ⟨_, by simp [visitFields]; rfl⟩
      · rw [if_neg h3] at h
        by_cases h4 : handledTag tag
        · replace h4 : tag = "Emph" ∨ tag = "Strong" ∨ tag = "BlockQuote" ∨
              tag = "Item" ∨ tag = "Clause" ∨ tag = "Link" ∨
              tag = "Image" ∨ tag = "Paragraph" ∨ tag = "EnumVariable" ∨
              tag = "FormattedVariable" ∨ tag = "Formula" ∨
              tag = "Variable" ∨ tag = "Conditional" ∨
              tag = "HtmlInline" ∨ tag = "HtmlBlock" ∨
              tag = "CodeBlock" ∨ tag = "Code" ∨ tag = "Text" ∨
              tag = "Heading" ∨ tag = "ThematicBreak" ∨
              tag = "Linebreak" ∨ tag = "Softbreak" ∨
              tag = "ListBlock" ∨ tag = "List" ∨ tag = "Document" := by
            simpa [handledTag] using h4
          rcases h4 with rfl | rfl | rfl | rfl | rfl | rfl | rfl | rfl |
            rfl | rfl | rfl | rfl | rfl | rfl | rfl | rfl | rfl | rfl |
            rfl | rfl | rfl | rfl | rfl | rfl | rfl
          · exact (h1 (by simp)).elim
          · exact (h1 (by simp)).elim
          · exact (h1 (by simp)).elim
          · exact (h1 (by simp)).elim
          · exact (h1 (by simp)).elim
          · exact (h3 (by simp)).elim
          · exact ⟨_, by simp [visitFields] <;> rfl⟩
          · exact (h1 (by simp)).elim
          · exact ⟨_, by simp [visitFields] <;> rfl⟩
          · exact ⟨_, by simp [visitFields] <;> rfl⟩
          · exact ⟨_, by simp [visitFields] <;> rfl⟩
          · exact ⟨_, by simp [visitFields] <;> rfl⟩
          · exact (h3 (by simp)).elim
          · exact ⟨_, by simp [visitFields] <;> rfl⟩
          · exact ⟨_, by simp [visitFields] <;> rfl⟩
          · exact ⟨_, by simp [visitFields] <;> rfl⟩
          · exact ⟨_, by simp [visitFields] <;> rfl⟩
          · exact ⟨_, by simp [visitFields] <;> rfl⟩
          · exact (h2 rfl).elim
          · exact ⟨_, by simp [visitFields] <;> rfl⟩
          · exact ⟨_, by simp [visitFields] <;> rfl⟩
          · exact ⟨_, by simp [visitFields] <;> rfl⟩
          · exact (h1 (by simp)).elim
          · exact (h1 (by simp)).elim
          · exact (h1 (by simp)).elim
        · rw [if_neg h4] at h
          exact absurd h (by decide)

/-- List version of `visitFields_ok_of_errKind`. -/
theorem processChildren_ok_of_errKind (ns : List MdNode) :
    ∀ m : VisitParams, errKindList ns = .ok →
      ∃ res, processChildren ns m = .ok res := by
  cases ns with
  | nil => exact fun m _ => ⟨[], rfl⟩
  | cons n ns2 =>
    intro m h
    rw [errKindList] at h
    cases hk : errKind n with
    | ok =>
      rw [hk, if_pos rfl] at h
      obtain ⟨pr, hpr⟩ := visitFields_ok_of_errKind n
        (⟨m.strong, m.emph, m.code⟩ : VisitParams) hk
      obtain ⟨res2, hres2⟩ := processChildren_ok_of_errKind ns2 m h
      obtain ⟨fs, w⟩ := pr
      refine ⟨PdfVal.obj fs :: res2, ?_⟩
      rw [show processChildren (n :: ns2) m =
          (match visitFields n (⟨m.strong, m.emph, m.code⟩ : VisitParams) with
           | .error er => .error er
           | .ok (fs, _) =>
             match processChildren ns2 m with
             | .error er => .error er
             | .ok tail => .ok (PdfVal.obj fs :: tail)) from rfl]
      rw [hpr]
      show ((match processChildren ns2 m with
            | .error er => .error er
            | .ok tail => .ok (PdfVal.obj fs :: tail)) :
          Except String (List PdfVal)) = .ok (PdfVal.obj fs :: res2)
      rw [hres2]
    | unhandledErr =>
      rw [hk, if_neg (by decide)] at h
      exact absurd h (by decide)
    | otherErr =>
      rw [hk, if_neg (by decide)] at h
      exact absurd h (by decide)

/-- When the first failure the traversal meets on a node is an
unhandled tag, the visit throws exactly the `Unhandled type ...` error
for an unhandled tag. -/
theorem visitFields_unhandled_of_errKind (t : MdNode) :
    ∀ m : VisitParams, errKind t = .unhandledErr →
      ∃ tg, handledTag tg = false ∧
        visitFields t m = .error ("Unhandled type " ++ tg) := by
  obtain ⟨tag, text, nodes, l, d, lt, v, et, ib⟩ := t
  intro m h
  rw [errKind] at h
  by_cases h1 : tag = "Emph" ∨ tag = "Strong" ∨ tag = "BlockQuote" ∨
      tag = "Item" ∨ tag = "Clause" ∨ tag = "Paragraph" ∨
      tag = "ListBlock" ∨ tag = "List" ∨ tag = "Document"
  · rw [if_pos h1] at h
    rcases h1 with rfl | rfl | rfl | rfl | rfl | rfl | rfl | rfl | rfl
    · obtain ⟨tg, htg, he⟩ := processChildren_unhandled_of_errKind nodes
        { m with emph := true } h
      exact ⟨tg, htg, by simp [visitFields, he]⟩
    · obtain ⟨tg, htg, he⟩ := processChildren_unhandled_of_errKind nodes
        { m with strong := true } h
      exact ⟨tg, htg, by simp [visitFields, he]⟩
    · obtain ⟨tg, htg, he⟩ := processChildren_unhandled_of_errKind nodes m h
      exact ⟨tg, htg, by simp [visitFields, he]⟩
    · obtain ⟨tg, htg, he⟩ := processChildren_unhandled_of_errKind nodes m h
      exact ⟨tg, htg, by simp [visitFields, he]⟩
    · obtain ⟨tg, htg, he⟩ := processChildren_unhandled_of_errKind nodes m h
      exact ⟨tg, htg, by simp [visitFields, he]⟩
    · obtain ⟨tg, htg, he⟩ := processChildren_unhandled_of_errKind nodes m h
      exact ⟨tg, htg, by simp [visitFields, he]⟩
    · obtain ⟨tg, htg, he⟩ := processChildren_unhandled_of_errKind nodes m h
      exact ⟨tg, htg, by simp [visitFields, he]⟩
    · obtain ⟨tg, htg, he⟩ := processChildren_unhandled_of_errKind nodes m h
      exact ⟨tg, htg, by simp [visitFields, he]⟩
    · obtain ⟨tg, htg, he⟩ := processChildren_unhandled_of_errKind nodes m h
      exact ⟨tg, htg, by simp [visitFields, he]⟩
  · rw [if_neg h1] at h
    by_cases h2 : tag = "Heading"
    · subst h2
      rw [if_pos rfl] at h
      cases nodes with
      | nil => simp at h
      | cons n0 ns0 =>
        rw [if_neg (by simp)] at h
        obtain ⟨tg, htg, he⟩ := processChildren_unhandled_of_errKind
          (n0 :: ns0) m h
        exact ⟨tg, htg, by simp [visitFields, he]⟩
    · rw [if_neg h2] at h
      by_cases h3 : tag = "Link" ∨ tag = "Conditional"
      · rw [if_pos h3] at h
        cases nodes with
        | nil => simp at h
        | cons n0 ns0 =>
          rw [if_neg (by simp)] at h
          exact absurd h (by decide)
      · rw [if_neg h3] at h
        by_cases h4 : handledTag tag
        · rw [if_pos h4] at h
          exact absurd h (by decide)
        · refine ⟨tag, by simpa using h4, ?_⟩
          have hall : ¬(tag = "Emph") ∧ ¬(tag = "Strong") ∧
              ¬(tag = "BlockQuote") ∧ ¬(tag = "Item") ∧
              ¬(tag = "Clause") ∧ ¬(tag = "Link") ∧ ¬(tag = "Image") ∧
              ¬(tag = "Paragraph") ∧ ¬(tag = "EnumVariable") ∧
              ¬(tag = "FormattedVariable") ∧ ¬(tag = "Formula") ∧
              ¬(tag = "Variable") ∧ ¬(tag = "Conditional") ∧
              ¬(tag = "HtmlInline") ∧ ¬(tag = "HtmlBlock") ∧
              ¬(tag = "CodeBlock") ∧ ¬(tag = "Code") ∧ ¬(tag = "Text") ∧
              ¬(tag = "Heading") ∧ ¬(tag = "ThematicBreak") ∧
              ¬(tag = "Linebreak") ∧ ¬(tag = "Softbreak") ∧
              ¬(tag = "ListBlock") ∧ ¬(tag = "List") ∧
              ¬(tag = "Document") := by
            simpa [handledTag, not_or] using h4
          obtain ⟨g1, g2, g3, g4, g5, g6, g7, g8, g9, g10, g11, g12, g13,
            g14, g15, g16, g17, g18, g19, g20, g21, g22, g23, g24,
            g25⟩ := hall
          simp [visitFields, g1, g2, g3, g4, g5, g6, g7, g8, g9, g10, g11,
            g12, g13, g14, g15, g16, g17, g18, g19, g20, g21, g22, g23,
            g24, g25]

/-- List version of `visitFields_unhandled_of_errKind`: children are
visited left to right, and when the first failure among them is an
unhandled tag, the whole children pass throws its `Unhandled type ...`
error. -/
theorem processChildren_unhandled_of_errKind (ns : List MdNode) :
    ∀ m : VisitParams, errKindList ns = .unhandledErr →
      ∃ tg, handledTag tg = false ∧
        processChildren ns m = .error ("Unhandled type " ++ tg) := by
  cases ns with
  | nil =>
    intro m h
    rw [errKindList] at h
    exact absurd h (by simp)
  | cons n ns2 =>
    intro m h
    rw [errKindList] at h
    cases hk : errKind n with
    | ok =>
      rw [hk, if_pos rfl] at h
      obtain ⟨pr, hpr⟩ := visitFields_ok_of_errKind n
        (⟨m.strong, m.emph, m.code⟩ : VisitParams) hk
      obtain ⟨tg, htg, he⟩ := processChildren_unhandled_of_errKind ns2 m h
      obtain ⟨fs, w⟩ := pr
      refine ⟨tg, htg, ?_⟩
      rw [show processChildren (n :: ns2) m =
          (match visitFields n (⟨m.strong, m.emph, m.code⟩ : VisitParams) with
           | .error er => .error er
           | .ok (fs, _) =>
             match processChildren ns2 m with
             | .error er => .error er
             | .ok tail => .ok (PdfVal.obj fs :: tail)) from rfl]
      rw [hpr]
      show ((match processChildren ns2 m with
            | .error er => .error er
            | .ok tail => .ok (PdfVal.obj fs :: tail)) :
          Except String (List PdfVal)) = .error ("Unhandled type " ++ tg)
      rw [he]
    | unhandledErr =>
      obtain ⟨tg, htg, he⟩ := visitFields_unhandled_of_errKind n
        (⟨m.strong, m.emph, m.code⟩ : VisitParams) hk
      refine ⟨tg, htg, ?_⟩
      rw [show processChildren (n :: ns2) m =
          (match visitFields n (⟨m.strong, m.emph, m.code⟩ : VisitParams) with
           | .error er => .error er
           | .ok (fs, _) =>
             match processChildren ns2 m with
             | .error er => .error er
             | .ok tail => .ok (PdfVal.obj fs :: tail)) from rfl]
      rw [he]
    | otherErr =>
      rw [hk, if_neg (by decide)] at h
      exact absurd h (by decide)

end

/-- C7 (amended): whenever the first failure the traversal meets is an
unhandled tag — the dispatcher reaches a node with no rule (at the root
or through the children-recursing rules of Emph, Strong, BlockQuote,
Item, Clause, Paragraph, Heading, ListBlock, List, Document) before any
other failure — the whole transformation raises the UnhandledNodeType
error `Unhandled type <tag>` for an unhandled tag, and produces no
output at all.  An unhandled tag in a subtree the dispatcher reads
without visiting (children of Link, Image, Conditional, Code blocks, or
Text) is never visited and does not raise; and when a
missing-first-child TypeError comes first in traversal order, that
error is raised instead. -/
theorem claim7_unhandled_aborts :
    ∀ (t : MdNode) (m : VisitParams), errKind t = .unhandledErr →
      ∃ tg, handledTag tg = false ∧
        visit t m = .error ("Unhandled type " ++ tg) := by
  intro t m h
  obtain ⟨tg, htg, he⟩ := visitFields_unhandled_of_errKind t m h
  refine ⟨tg, htg, ?_⟩
  rw [show visit t m = (visitFields t m).map
    (fun pr => (PdfVal.obj pr.1, pr.2)) from rfl, he]
  rfl

/-- A tree with an unhandled Mystery node below a Link transforms
successfully because the Link rule reads its first child without
visiting it, while visiting the Mystery node directly raises the
UnhandledNodeType error. -/
theorem claim7_counterexample :
    visit (.mk "Link" "" [.mk "Mystery" "hi" [] "" "" "" "" "" false]
        "" "d" "" "" "" false) ⟨false, false, false⟩ =
      .ok (.obj [("style", .s "Link"), ("text", .s "hi"), ("link", .s "d")],
           ⟨false, false, false⟩) ∧
    visit (.mk "Mystery" "hi" [] "" "" "" "" "" false) ⟨false, false, false⟩ =
      .error "Unhandled type Mystery" := by
  exact ⟨rfl, rfl⟩

theorem claim7_witness :
    errKind (.mk "Document" "" [.mk "Mystery" "hi" [] "" "" "" "" "" false]
      "" "" "" "" "" false) = .unhandledErr ∧
    ∃ tg, handledTag tg = false ∧
      visit (.mk "Document" "" [.mk "Mystery" "hi" [] "" "" "" "" "" false]
        "" "" "" "" "" false) ⟨false, false, false⟩ =
        .error ("Unhandled type " ++ tg) :=
  ⟨rfl, claim7_unhandled_aborts _ ⟨false, false, false⟩ rfl⟩
